import Mathlib

/-!
Shallow embedding of the `oscae-chess` engine (`src/lib.rs`) and proofs about
its move generation, move application, bookkeeping and FEN codec.

Conventions of the embedding:
* Rust `i8` values are modelled as `Int` together with `wrap8`, the two's
  complement wrap-around of release-mode Rust arithmetic; `i8add` is the
  source's `+` on `i8`.
* Rust `u64` bitmaps are modelled as `Nat`; the bitwise complement `!x`
  of the source is `not64` (xor with the 64-bit all-ones mask), and the
  `u32` / `u8` counters wrap modulo `2^32` / `2^8` where incremented.
* `HashMap<Square, Piece>` is modelled as an association list with unique
  keys (`lookupSq` / `insertSq` / `eraseSq` / `replaceSq`); iteration order
  is the list order.  `HashMap<BoardValue, u8>` is modelled the same way.
* The `loop` in `bitmap_line` is modelled with fuel.  On any input whose
  coordinates are `i8` values the source loop exits after at most 9
  iterations (a contribution of `0` to `new_moves` ends the loop, and only
  consecutive in-board squares contribute fresh bits), so fuel 20 is
  never exhausted on the states the program can build.
-/

set_option maxRecDepth 8000

namespace Chess

/-- `str::trim` (structural, on the character list). -/
def strTrim (s : String) : String :=
  String.mk
    (((s.toList.dropWhile Char.isWhitespace).reverse.dropWhile
      Char.isWhitespace).reverse)

/-- `str::to_ascii_lowercase` (structural, on the character list). -/
def strToLower (s : String) : String := String.mk (s.toList.map Char.toLower)

/-- Two's complement wrap of an integer into the `i8` range `[-128, 127]`. -/
def wrap8 (n : Int) : Int := (n + 128) % 256 - 128

/-- `i8` addition (release-mode wrap-around semantics). -/
def i8add (a b : Int) : Int := wrap8 (a + b)

/-- The 64-bit all-ones mask. -/
def mask64 : Nat := 2 ^ 64 - 1

/-- Bitwise complement on `u64` (`!x` of the source). -/
def not64 (x : Nat) : Nat := x ^^^ mask64

structure Square where
  x : Int
  y : Int
deriving DecidableEq

inductive PieceType where
  | King | Queen | Bishop | Knight | Rook | Pawn
deriving DecidableEq

inductive PieceColor where
  | White | Black
deriving DecidableEq

inductive ChessResult where
  | Ongoing | WhiteWon | BlackWon | Draw
deriving DecidableEq

structure Piece where
  piece_type : PieceType
  color : PieceColor
  pos : Square
  has_moved : Bool
deriving DecidableEq

/-- `impl Not for PieceColor`. -/
def PieceColor.not : PieceColor → PieceColor
  | .White => .Black
  | .Black => .White

/-- `Piece::get_direction`. -/
def Piece.get_direction (p : Piece) : Int :=
  match p.color with
  | .White => 1
  | .Black => -1

/-- `Square::to_index` (`x + y * 8` on `i8`; callers only use in-board squares). -/
def Square.to_index (s : Square) : Int := i8add s.x (wrap8 (s.y * 8))

/-- `impl From<i8> for Square`: `x = value % 8, y = value / 8` with Rust's
truncated `%` and `/`. -/
def Square.ofIndex (i : Int) : Square := ⟨i.tmod 8, i.tdiv 8⟩

/-- `impl From<(i8, i8)> for Square`. -/
def Square.ofPair (p : Int × Int) : Square := ⟨p.1, p.2⟩

/-- `Square::to_bitmap`: single-bit `u64` mask, `0` off the board. -/
def Square.to_bitmap (s : Square) : Nat :=
  if s.x < 0 ∨ 8 ≤ s.x ∨ s.y < 0 ∨ 8 ≤ s.y then 0
  else (1 <<< (s.y * 8).toNat) <<< s.x.toNat

/-- `Square::moved`: relative offset, `i8` arithmetic. -/
def Square.moved (s : Square) (dx dy : Int) : Square :=
  ⟨i8add s.x dx, i8add s.y dy⟩

/-- `Square::to_notation` (`(b'A' + x as u8) as char` then the rank digit). -/
def Square.to_notation (s : Square) : String :=
  String.mk [Char.ofNat ((65 + s.x) % 256).toNat] ++ toString (s.y + 1)

/-- `impl From<&str> for Square` (algebraic notation, `-1` for bad input). -/
def Square.ofStr (pos : String) : Square :=
  let cs := (strTrim pos).toList
  let x : Int :=
    match cs with
    | c :: _ =>
      match c.toUpper with
      | 'A' => 0 | 'B' => 1 | 'C' => 2 | 'D' => 3
      | 'E' => 4 | 'F' => 5 | 'G' => 6 | 'H' => 7
      | _ => -1
    | [] => -1
  let y : Int :=
    match cs with
    | _ :: c :: _ =>
      match c with
      | '1' => 0 | '2' => 1 | '3' => 2 | '4' => 3
      | '5' => 4 | '6' => 5 | '7' => 6 | '8' => 7
      | _ => -1
    | _ => -1
  ⟨x, y⟩

structure BoardValue where
  white_bitmap : Nat
  black_bitmap : Nat
  king_bitmap : Nat
  queen_bitmap : Nat
  bishop_bitmap : Nat
  knight_bitmap : Nat
  rook_bitmap : Nat
  pawn_bitmap : Nat
  data : Nat
deriving DecidableEq

structure Game where
  live_pieces : List (Square × Piece)
  fifty_move_rule : Nat
  previous_states : List (BoardValue × Nat)
  white_bitmap : Nat
  black_bitmap : Nat
  turn : PieceColor
  result : ChessResult
  last_moved_from : Square
  last_moved_to : Square
  capture : Bool
  check : Bool
  promotion : Bool
  white_captured_pieces : List PieceType
  black_captured_pieces : List PieceType
  fullmoves : Nat
deriving DecidableEq

/-- `HashMap::get` on the piece map. -/
def lookupSq (l : List (Square × Piece)) (k : Square) : Option Piece :=
  match l.find? (fun pr => decide (pr.1 = k)) with
  | some pr => some pr.2
  | none => none

/-- `HashMap::remove` on the piece map. -/
def eraseSq (l : List (Square × Piece)) (k : Square) : List (Square × Piece) :=
  l.filter (fun pr => !decide (pr.1 = k))

/-- `HashMap::insert` on the piece map. -/
def insertSq (l : List (Square × Piece)) (k : Square) (v : Piece) :
    List (Square × Piece) :=
  (k, v) :: eraseSq l k

/-- `HashMap::get_mut` followed by a value update (key position preserved). -/
def replaceSq (l : List (Square × Piece)) (k : Square) (v : Piece) :
    List (Square × Piece) :=
  l.map (fun pr => if pr.1 = k then (k, v) else pr)

/-- `HashMap::get` on the repetition history. -/
def lookupBV (l : List (BoardValue × Nat)) (k : BoardValue) : Option Nat :=
  match l.find? (fun pr => decide (pr.1 = k)) with
  | some pr => some pr.2
  | none => none

/-- `HashMap::get_mut` + in-place bump on the repetition history. -/
def replaceBV (l : List (BoardValue × Nat)) (k : BoardValue) (v : Nat) :
    List (BoardValue × Nat) :=
  l.map (fun pr => if pr.1 = k then (k, v) else pr)

/-- `bitmap_line`'s `loop` body, with fuel (see the header comment). -/
def bitmapLineGo (own other : Nat) (dx dy : Int) :
    Nat → Square → Nat → Nat
  | 0, _, moves => moves
  | fuel + 1, square, moves =>
    let square2 := square.moved dx dy
    let new_moves := moves ||| (square2.to_bitmap &&& not64 own)
    if new_moves = moves then moves
    else if new_moves &&& other ≠ 0 then new_moves
    else bitmapLineGo own other dx dy fuel square2 new_moves

/-- `bitmap_line`: ray from `start` (exclusive) until collision. -/
def bitmap_line (start : Square) (dx dy : Int) (own other : Nat) : Nat :=
  bitmapLineGo own other dx dy 20 start 0

/-- `_make_color_bitmap`. -/
def make_color_bitmap (live_pieces : List (Square × Piece))
    (color : PieceColor) : Nat :=
  live_pieces.foldl
    (fun bitmap pr =>
      if pr.2.color ≠ color then bitmap else bitmap ||| pr.2.pos.to_bitmap)
    0

namespace Game

/-- `Game::psuedo_legal_moves_king`. -/
def psuedo_legal_moves_king (piece : Piece) (own_color_bitmap : Nat) : Nat :=
  let moves :=
    (piece.pos.moved 1 0).to_bitmap |||
    (piece.pos.moved 1 1).to_bitmap |||
    (piece.pos.moved 0 1).to_bitmap |||
    (piece.pos.moved (-1) 1).to_bitmap |||
    (piece.pos.moved (-1) 0).to_bitmap |||
    (piece.pos.moved (-1) (-1)).to_bitmap |||
    (piece.pos.moved 0 (-1)).to_bitmap |||
    (piece.pos.moved 1 (-1)).to_bitmap
  moves &&& not64 own_color_bitmap

/-- `Game::psuedo_legal_moves_queen`. -/
def psuedo_legal_moves_queen (piece : Piece) (own other : Nat) : Nat :=
  bitmap_line piece.pos 1 0 own other |||
  bitmap_line piece.pos 1 1 own other |||
  bitmap_line piece.pos 0 1 own other |||
  bitmap_line piece.pos (-1) 1 own other |||
  bitmap_line piece.pos (-1) 0 own other |||
  bitmap_line piece.pos (-1) (-1) own other |||
  bitmap_line piece.pos 0 (-1) own other |||
  bitmap_line piece.pos 1 (-1) own other

/-- `Game::psuedo_legal_moves_bishop`. -/
def psuedo_legal_moves_bishop (piece : Piece) (own other : Nat) : Nat :=
  bitmap_line piece.pos 1 1 own other |||
  bitmap_line piece.pos (-1) 1 own other |||
  bitmap_line piece.pos (-1) (-1) own other |||
  bitmap_line piece.pos 1 (-1) own other

/-- `Game::psuedo_legal_moves_knight`. -/
def psuedo_legal_moves_knight (piece : Piece) (own_color_bitmap : Nat) : Nat :=
  let moves :=
    (piece.pos.moved 2 1).to_bitmap |||
    (piece.pos.moved 1 2).to_bitmap |||
    (piece.pos.moved (-1) 2).to_bitmap |||
    (piece.pos.moved (-2) 1).to_bitmap |||
    (piece.pos.moved (-2) (-1)).to_bitmap |||
    (piece.pos.moved (-1) (-2)).to_bitmap |||
    (piece.pos.moved 1 (-2)).to_bitmap |||
    (piece.pos.moved 2 (-1)).to_bitmap
  moves &&& not64 own_color_bitmap

/-- `Game::psuedo_legal_moves_rook`. -/
def psuedo_legal_moves_rook (piece : Piece) (own other : Nat) : Nat :=
  bitmap_line piece.pos 1 0 own other |||
  bitmap_line piece.pos 0 1 own other |||
  bitmap_line piece.pos (-1) 0 own other |||
  bitmap_line piece.pos 0 (-1) own other

/-- The single-step / double-step / diagonal-capture part of
`Game::psuedo_legal_moves_pawn`. -/
def pawnBaseMoves (piece : Piece) (own other : Nat) : Nat :=
  let direction := piece.get_direction
  let all_bitmap := own ||| other
  let moves0 := (piece.pos.moved 0 direction).to_bitmap &&& not64 all_bitmap
  let moves1 :=
    if piece.has_moved = false ∧ moves0 ≠ 0 then
      moves0 ||| ((piece.pos.moved 0 (direction * 2)).to_bitmap &&& not64 all_bitmap)
    else moves0
  moves1 |||
    (((piece.pos.moved 1 direction).to_bitmap |||
      (piece.pos.moved (-1) direction).to_bitmap) &&& other)

/-- The en-passant clause of `Game::psuedo_legal_moves_pawn`: the single
bit behind the last-moved piece when that piece is a pawn that just moved
two ranks and stands file-adjacent to `piece`; the empty mask otherwise
(the source ORs the bit in under the same condition). -/
def pawnEpClause (g : Game) (piece : Piece) : Nat :=
  match lookupSq g.live_pieces g.last_moved_to with
  | some last_moved_piece =>
    if last_moved_piece.piece_type = PieceType.Pawn ∧
        i8add g.last_moved_to.y (piece.get_direction * 2) = g.last_moved_from.y ∧
        ((piece.pos.moved (-1) 0).to_bitmap ||| (piece.pos.moved 1 0).to_bitmap)
          &&& last_moved_piece.pos.to_bitmap ≠ 0 then
      (g.last_moved_to.moved 0 piece.get_direction).to_bitmap
    else 0
  | none => 0

/-- `Game::psuedo_legal_moves_pawn` (single step, double step, diagonal
captures, and the en-passant clause driven by `last_moved_from/to`). -/
def psuedo_legal_moves_pawn (g : Game) (piece : Piece) (own other : Nat) :
    Nat :=
  pawnBaseMoves piece own other ||| pawnEpClause g piece

/-- `Game::psuedo_legal_moves` (dispatch on the piece type). -/
def psuedo_legal_moves (g : Game) (piece : Piece) (own other : Nat) : Nat :=
  match piece.piece_type with
  | .King => psuedo_legal_moves_king piece own
  | .Queen => psuedo_legal_moves_queen piece own other
  | .Bishop => psuedo_legal_moves_bishop piece own other
  | .Knight => psuedo_legal_moves_knight piece own
  | .Rook => psuedo_legal_moves_rook piece own other
  | .Pawn => psuedo_legal_moves_pawn g piece own other

/-- The attack test of `Game::legal_moves`' per-candidate filter loop: does
any surviving opposing piece pseudo-attack the (possibly moved) own king
after the simulated move to square `i`? -/
def legalFilterAttacked (g : Game) (piece : Piece)
    (own other pos_bitmap own_king_bitmap : Nat) (i : Nat) : Bool :=
  let possible_move := Square.ofIndex (Int.ofNat i)
  let possible_move_bitmap := possible_move.to_bitmap
  let new_own_color_bitmap := (own &&& not64 pos_bitmap) ||| possible_move_bitmap
  let new_other_color_bitmap :=
    if piece.piece_type = PieceType.Pawn ∧ piece.pos.x ≠ possible_move.x ∧
        other &&& possible_move_bitmap = 0 then
      other &&& not64 (possible_move.moved 0 (-piece.get_direction)).to_bitmap
    else
      other &&& not64 possible_move_bitmap
  let king_bitmap :=
    if piece.piece_type = PieceType.King then possible_move_bitmap
    else own_king_bitmap
  g.live_pieces.any (fun pr =>
    decide (pr.2.color ≠ piece.color) &&
    decide (pr.2.pos.to_bitmap &&& new_other_color_bitmap ≠ 0) &&
    decide (psuedo_legal_moves g pr.2 new_other_color_bitmap
      new_own_color_bitmap &&& king_bitmap ≠ 0))

/-- The body of `Game::legal_moves`' per-candidate filter loop: clears bit `i`
from `moves` when the simulated move leaves the own king attacked. -/
def legalFilterStep (g : Game) (piece : Piece) (own other pos_bitmap
    own_king_bitmap : Nat) (moves : Nat) (i : Nat) : Nat :=
  if (moves >>> i) &&& 1 = 0 then moves
  else if legalFilterAttacked g piece own other pos_bitmap own_king_bitmap i then
    moves &&& not64 (Square.ofIndex (Int.ofNat i)).to_bitmap
  else moves

/-- `Game::legal_moves`: pseudo-legal moves plus castling candidates, minus
everything that leaves the own king attacked. -/
def legal_moves (g : Game) (piece : Piece) : Nat :=
  let ownOther :=
    match piece.color with
    | .White => (g.white_bitmap, g.black_bitmap)
    | .Black => (g.black_bitmap, g.white_bitmap)
  let own := ownOther.1
  let other := ownOther.2
  let pos_bitmap := piece.pos.to_bitmap
  let moves0 := psuedo_legal_moves g piece own other
  let moves1 :=
    if piece.piece_type = PieceType.King ∧ piece.has_moved = false ∧
        g.check = false then
      let mA :=
        match lookupSq g.live_pieces ⟨0, piece.pos.y⟩ with
        | some rook =>
          if rook.piece_type = PieceType.Rook ∧ rook.has_moved = false ∧
              bitmap_line piece.pos (-1) 0 own other &&&
                (Square.ofPair (1, piece.pos.y)).to_bitmap ≠ 0 then
            moves0 ||| (piece.pos.moved (-2) 0).to_bitmap
          else moves0
        | none => moves0
      match lookupSq g.live_pieces ⟨7, piece.pos.y⟩ with
      | some rook =>
        if rook.piece_type = PieceType.Rook ∧ rook.has_moved = false ∧
            bitmap_line piece.pos 1 0 own other &&&
              (Square.ofPair (6, piece.pos.y)).to_bitmap ≠ 0 then
          mA ||| (piece.pos.moved 2 0).to_bitmap
        else mA
      | none => mA
    else moves0
  match (g.live_pieces.find? (fun pr =>
      decide (pr.2.piece_type = PieceType.King) &&
      decide (pr.2.color = piece.color))) with
  | none => moves1
  | some kingEntry =>
    let own_king_bitmap := kingEntry.1.to_bitmap
    let filtered := (List.range 64).foldl
      (legalFilterStep g piece own other pos_bitmap own_king_bitmap) moves1
    if piece.piece_type = PieceType.King then
      let f1 :=
        if (piece.pos.moved (-1) 0).to_bitmap &&& filtered = 0 then
          filtered &&& not64 (piece.pos.moved (-2) 0).to_bitmap
        else filtered
      if (piece.pos.moved 1 0).to_bitmap &&& f1 = 0 then
        f1 &&& not64 (piece.pos.moved 2 0).to_bitmap
      else f1
    else filtered

end Game

/-- `impl From<&Game> for BoardValue`: canonical position encoding
(per-color and per-type masks plus the castling/en-passant `data` byte). -/
def BoardValue.ofGame (g : Game) : BoardValue :=
  let en_passant_x : Int :=
    match lookupSq g.live_pieces g.last_moved_to with
    | some pawn =>
      if pawn.piece_type = PieceType.Pawn ∧
          i8add g.last_moved_from.y (pawn.get_direction * 2) = g.last_moved_to.y
      then g.last_moved_to.x
      else -8
    | none => -8
  g.live_pieces.foldl
    (fun bv pr =>
      let square := pr.1
      let piece := pr.2
      let bv :=
        match piece.color with
        | .White => { bv with white_bitmap := bv.white_bitmap ||| square.to_bitmap }
        | .Black => { bv with black_bitmap := bv.black_bitmap ||| square.to_bitmap }
      let bv :=
        match piece.piece_type with
        | .King => { bv with king_bitmap := bv.king_bitmap ||| square.to_bitmap }
        | .Queen => { bv with queen_bitmap := bv.queen_bitmap ||| square.to_bitmap }
        | .Bishop => { bv with bishop_bitmap := bv.bishop_bitmap ||| square.to_bitmap }
        | .Knight => { bv with knight_bitmap := bv.knight_bitmap ||| square.to_bitmap }
        | .Rook => { bv with rook_bitmap := bv.rook_bitmap ||| square.to_bitmap }
        | .Pawn => { bv with pawn_bitmap := bv.pawn_bitmap ||| square.to_bitmap }
      let color_bitshift : Nat :=
        match piece.color with
        | .White => 0
        | .Black => 4
      if piece.piece_type = PieceType.King ∧ piece.has_moved = false then
        let data := bv.data ||| (6 <<< color_bitshift)
        let data :=
          if (match lookupSq g.live_pieces (Square.ofPair (0, square.y)) with
              | some rook => decide (rook.piece_type ≠ PieceType.Rook) || rook.has_moved
              | none => true) = true then
            data &&& ((2 <<< color_bitshift) ^^^ 255)
          else data
        let data :=
          if (match lookupSq g.live_pieces (Square.ofPair (7, square.y)) with
              | some rook => decide (rook.piece_type ≠ PieceType.Rook) || rook.has_moved
              | none => true) = true then
            data &&& ((4 <<< color_bitshift) ^^^ 255)
          else data
        { bv with data := data }
      else if piece.piece_type = PieceType.Pawn ∧
          piece.pos.y = (match piece.color with | .White => (4 : Int) | .Black => 3) then
        if en_passant_x = i8add piece.pos.x (-1) ∨
            en_passant_x = i8add piece.pos.x 1 then
          { bv with data := bv.data ||| (1 <<< color_bitshift) }
        else bv
      else bv)
    ⟨0, 0, 0, 0, 0, 0, 0, 0, 0⟩

namespace Game

/-- `Game::capture` (the method): remove any piece on `square`, record it,
clear the repetition history, and clear the square in both bitmaps. -/
def captureAt (g : Game) (square : Square) : Game :=
  let g1 :=
    match lookupSq g.live_pieces square with
    | some piece =>
      let ga := { g with live_pieces := eraseSq g.live_pieces square }
      let gb :=
        match piece.color with
        | .White =>
          { ga with white_captured_pieces :=
              ga.white_captured_pieces ++ [piece.piece_type] }
        | .Black =>
          { ga with black_captured_pieces :=
              ga.black_captured_pieces ++ [piece.piece_type] }
      { gb with previous_states := [] }
    | none => g
  { g1 with
    white_bitmap := g1.white_bitmap &&& not64 square.to_bitmap,
    black_bitmap := g1.black_bitmap &&& not64 square.to_bitmap }

/-- `post_move` step 1: recompute the check flag (does any piece of the side
that just moved pseudo-attack the opposing king?). -/
def checkPhase (g : Game) : Game :=
  let ownOther :=
    match g.turn with
    | .White => (g.white_bitmap, g.black_bitmap)
    | .Black => (g.black_bitmap, g.white_bitmap)
  let other_king_bitmap :=
    match g.live_pieces.find? (fun pr =>
        decide (pr.2.piece_type = PieceType.King) &&
        decide (pr.2.color ≠ g.turn)) with
    | some pr => pr.1.to_bitmap
    | none => 0
  let chk := g.live_pieces.any (fun pr =>
    decide (pr.2.color = g.turn) &&
    decide (psuedo_legal_moves g pr.2 ownOther.1 ownOther.2 &&&
      other_king_bitmap ≠ 0))
  { g with check := chk }

/-- `post_move` step 2: the 50-move rule. -/
def fiftyPhase (g : Game) : Game :=
  if 100 ≤ g.fifty_move_rule then { g with result := ChessResult.Draw } else g

/-- `post_move` step 3: bump the repetition count of the current canonical
encoding (`u8` wrap-around) and declare a draw at three occurrences. -/
def repetitionPhase (g : Game) : Game :=
  let board_value := BoardValue.ofGame g
  match lookupBV g.previous_states board_value with
  | some val =>
    let val2 := (val + 1) % 256
    { g with
      previous_states := replaceBV g.previous_states board_value val2,
      result := if 3 ≤ val2 then ChessResult.Draw else g.result }
  | none =>
    { g with previous_states := (board_value, 1) :: g.previous_states }

/-- `post_move` step 4: draw by insufficient material (at most three pieces,
all of them kings, bishops or knights). -/
def materialPhase (g : Game) : Game :=
  if g.live_pieces.length ≤ 3 then
    if g.live_pieces.all (fun pr =>
        decide (pr.2.piece_type = PieceType.King) ||
        decide (pr.2.piece_type = PieceType.Bishop) ||
        decide (pr.2.piece_type = PieceType.Knight)) then
      { g with result := ChessResult.Draw }
    else g
  else g

/-- `post_move` step 5: increment the full-move counter after Black's move. -/
def fullmovePhase (g : Game) : Game :=
  if g.turn = PieceColor.Black then
    { g with fullmoves := (g.fullmoves + 1) % 4294967296 }
  else g

/-- `post_move` step 6: flip the side to move. -/
def turnFlipPhase (g : Game) : Game := { g with turn := g.turn.not }

/-- `post_move` step 7: if the new side to move has no legal move, record
checkmate (a win for the mover) or stalemate (a draw). -/
def terminalPhase (g : Game) : Game :=
  if (g.live_pieces.any (fun pr =>
      decide (pr.2.color = g.turn) && decide (legal_moves g pr.2 ≠ 0))) = false then
    { g with result :=
        if g.check then
          match g.turn with
          | .White => ChessResult.BlackWon
          | .Black => ChessResult.WhiteWon
        else ChessResult.Draw }
  else g

/-- `Game::post_move`: check detection, draw rules, turn flip and
terminal detection, in source order. -/
def post_move (g : Game) : Game :=
  terminalPhase (turnFlipPhase (fullmovePhase (materialPhase
    (repetitionPhase (fiftyPhase (checkPhase g))))))

/-- The castling branch of `Game::force_move`: relocate the rook found on
file 0 / file 7 of the king's rank and report the bitmap delta. -/
def castleRelocation (g : Game) (piece : Piece) (toSq : Square) :
    Game × Nat × Nat :=
  if piece.piece_type = PieceType.King ∧ piece.has_moved = false then
    if piece.pos.moved (-2) 0 = toSq then
      match lookupSq g.live_pieces (Square.ofPair (0, piece.pos.y)) with
      | some rook =>
        let g1 := { g with live_pieces := eraseSq g.live_pieces rook.pos }
        let castle_bitmap_remove := rook.pos.to_bitmap
        let newpos := toSq.moved 1 0
        let castle_bitmap_add := newpos.to_bitmap
        let rook2 : Piece := { rook with has_moved := true, pos := newpos }
        ({ g1 with live_pieces := insertSq g1.live_pieces newpos rook2 },
         castle_bitmap_add, castle_bitmap_remove)
      | none => (g, 0, 0)
    else if piece.pos.moved 2 0 = toSq then
      match lookupSq g.live_pieces (Square.ofPair (7, piece.pos.y)) with
      | some rook =>
        let g1 := { g with live_pieces := eraseSq g.live_pieces rook.pos }
        let castle_bitmap_remove := rook.pos.to_bitmap
        let newpos := toSq.moved (-1) 0
        let castle_bitmap_add := newpos.to_bitmap
        let rook2 : Piece := { rook with has_moved := true, pos := newpos }
        ({ g1 with live_pieces := insertSq g1.live_pieces newpos rook2 },
         castle_bitmap_add, castle_bitmap_remove)
      | none => (g, 0, 0)
    else (g, 0, 0)
  else (g, 0, 0)

/-- The capture branch of `Game::force_move`: if the destination square is
occupied per the color bitmaps, capture it, reset the half-move clock and
set the capture flag. -/
def forceMoveCaptureStep (g : Game) (toSq : Square) : Game :=
  if (g.black_bitmap ||| g.white_bitmap) &&& toSq.to_bitmap ≠ 0 then
    let gc := captureAt g toSq
    { gc with fifty_move_rule := 0, capture := true }
  else g

/-- The pawn branch of `Game::force_move`: reset the half-move clock, carry
out an en-passant capture (diagonal move that captured nothing), and raise
the promotion flag on the far rank. -/
def forceMovePawnStep (g : Game) (piece : Piece) (toSq : Square) : Game :=
  if piece.piece_type = PieceType.Pawn then
    let ga := { g with fifty_move_rule := 0 }
    let gb :=
      if piece.pos.x ≠ toSq.x ∧ ga.capture = false then
        let gc := captureAt ga (toSq.moved 0 (-piece.get_direction))
        { gc with capture := true }
      else ga
    if toSq.y = (match piece.color with | .White => (7 : Int) | .Black => 0)
    then { gb with promotion := true }
    else gb
  else g

/-- The unconditional tail of `Game::force_move`: castle relocation, the
mover-color bitmap update, the map re-keying of the moved piece, and the
`last_moved` bookkeeping. -/
def forceMoveApply (g3 : Game) (piece : Piece) (toSq : Square) : Game :=
  let pos_bitmap := toSq.to_bitmap
  let castled := castleRelocation g3 piece toSq
  let g4 := castled.1
  let castle_bitmap_add := castled.2.1
  let castle_bitmap_remove := castled.2.2
  let g5 :=
    match piece.color with
    | .White =>
      { g4 with white_bitmap :=
          (g4.white_bitmap &&&
            not64 (piece.pos.to_bitmap ||| castle_bitmap_remove)) |||
          (pos_bitmap ||| castle_bitmap_add) }
    | .Black =>
      { g4 with black_bitmap :=
          (g4.black_bitmap &&&
            not64 (piece.pos.to_bitmap ||| castle_bitmap_remove)) |||
          (pos_bitmap ||| castle_bitmap_add) }
  let g6 := { g5 with live_pieces := eraseSq g5.live_pieces piece.pos }
  let g7 := { g6 with last_moved_from := piece.pos, last_moved_to := toSq }
  let piece2 : Piece := { piece with pos := toSq, has_moved := true }
  { g7 with live_pieces := insertSq g7.live_pieces toSq piece2 }

/-- The state mutations of `Game::force_move` (captures, en passant,
promotion flag, castling rook relocation, bitmap and map updates,
`last_moved` bookkeeping), before the closing `post_move` decision. -/
def forceMoveCore (g : Game) (piece : Piece) (toSq : Square) : Game :=
  forceMoveApply
    (forceMovePawnStep
      (forceMoveCaptureStep
        ({ g with
           fifty_move_rule := (g.fifty_move_rule + 1) % 4294967296,
           capture := false }) toSq)
      piece toSq)
    piece toSq

/-- The closing step of `Game::force_move`: run `post_move` unless the move
left a promotion pending. -/
def forceMoveFinish (g8 : Game) : Game :=
  if g8.promotion = false then post_move g8 else g8

/-- `Game::force_move`: apply the move without legality checks. -/
def force_move (g : Game) (piece : Piece) (toSq : Square) :
    Except String Game :=
  if 7 < toSq.x ∨ 7 < toSq.y then .error "Position out of bounds!"
  else if g.promotion then
    .error "Pawn has to be promoted first! call pawn_promotion()"
  else
    .ok (forceMoveFinish (forceMoveCore g piece toSq))

/-- `Game::do_move`: validate (piece present, its side to move, no pending
promotion, destination among the recomputed legal moves) and apply. -/
def do_move (g : Game) (fromSq toSq : Square) : Bool × Game :=
  match lookupSq g.live_pieces fromSq with
  | none => (false, g)
  | some piece =>
    if piece.color ≠ g.turn then (false, g)
    else if g.promotion then (false, g)
    else if legal_moves g piece &&& toSq.to_bitmap ≠ 0 then
      match force_move g piece toSq with
      | .ok g2 => (true, g2)
      | .error _ => (false, g)
    else (false, g)

/-- `Game::pawn_promotion`. -/
def pawn_promotion (g : Game) (cls : PieceType) : Bool × Game :=
  if cls = PieceType.King ∨ cls = PieceType.Pawn ∨ g.promotion = false then
    (false, g)
  else
    match lookupSq g.live_pieces g.last_moved_to with
    | some piece =>
      let g1 := { g with
        live_pieces := replaceSq g.live_pieces g.last_moved_to
          { piece with piece_type := cls },
        promotion := false }
      (true, post_move g1)
    | none => (false, g)

/-- `Game::declare_draw`. -/
def declare_draw (g : Game) : Game :=
  if g.result = ChessResult.Ongoing then { g with result := ChessResult.Draw }
  else g

/-- `Game::declare_win`. -/
def declare_win (g : Game) (color : PieceColor) : Game :=
  if g.result = ChessResult.Ongoing then
    { g with result :=
        match color with
        | .White => ChessResult.WhiteWon
        | .Black => ChessResult.BlackWon }
  else g

/-- `Game::get_moves_bitmap`. -/
def get_moves_bitmap (g : Game) (fromSq : Square) : Nat :=
  match lookupSq g.live_pieces fromSq with
  | some piece => if piece.color = g.turn then legal_moves g piece else 0
  | none => 0

/-- `Game::get_moves_list`. -/
def get_moves_list (g : Game) (fromSq : Square) : List Square :=
  match lookupSq g.live_pieces fromSq with
  | some piece =>
    if piece.color ≠ g.turn then []
    else
      (List.range 64).filterMap (fun i =>
        if (legal_moves g piece >>> i) &&& 1 ≠ 0 then
          some (Square.ofIndex (Int.ofNat i))
        else none)
  | none => []

/-- The starting back-rank piece for a file. -/
def backRankType : Int → PieceType
  | 0 => .Rook
  | 1 => .Knight
  | 2 => .Bishop
  | 3 => .Queen
  | 4 => .King
  | 5 => .Bishop
  | 6 => .Knight
  | 7 => .Rook
  | _ => .Pawn

/-- `Game::new`: the standard starting position (the map is built in the
source's insertion order) with its canonical encoding already counted once
in the repetition history. -/
def new : Game :=
  let mkP (t : PieceType) (c : PieceColor) (x y : Int) : Square × Piece :=
    (⟨x, y⟩, ⟨t, c, ⟨x, y⟩, false⟩)
  let files : List Int := [0, 1, 2, 3, 4, 5, 6, 7]
  let live_pieces :=
    (files.map (fun x => mkP (backRankType x) .White x 0)) ++
    (files.map (fun x => mkP .Pawn .White x 1)) ++
    (files.map (fun x => mkP (backRankType x) .Black x 7)) ++
    (files.map (fun x => mkP .Pawn .Black x 6))
  let game0 : Game :=
    { live_pieces := live_pieces
      fifty_move_rule := 0
      previous_states := []
      white_bitmap := 0xFFFF
      black_bitmap := 0xFFFF000000000000
      turn := .White
      result := .Ongoing
      last_moved_from := ⟨-1, -1⟩
      last_moved_to := ⟨-1, -1⟩
      capture := false
      check := false
      promotion := false
      white_captured_pieces := []
      black_captured_pieces := []
      fullmoves := 1 }
  { game0 with previous_states := [(BoardValue.ofGame game0, 1)] }

/-- `str::split_whitespace`: split on whitespace runs, dropping empties. -/
def splitWhitespaceAux : List Char → List Char → List (List Char)
  | [], acc => if acc = [] then [] else [acc.reverse]
  | c :: cs, acc =>
    if c.isWhitespace then
      if acc = [] then splitWhitespaceAux cs []
      else acc.reverse :: splitWhitespaceAux cs []
    else splitWhitespaceAux cs (c :: acc)

/-- The whitespace-separated fields of a string. -/
def split_whitespace (s : String) : List String :=
  (splitWhitespaceAux s.toList []).map String.mk

/-- `c.to_string().parse::<i8>()` for a single character: only digits parse. -/
def parseDigit (c : Char) : Option Int :=
  if '0' ≤ c ∧ c ≤ '9' then some (Int.ofNat (c.toNat - 48)) else none

/-- `str::parse::<u32>` on a plain digit string (the inputs used here);
overflow is a parse error, as in Rust. -/
def parseU32 (s : String) : Option Nat :=
  let cs := s.toList
  if cs ≠ [] ∧ cs.all (fun c => decide ('0' ≤ c) && decide (c ≤ '9')) then
    let n := cs.foldl (fun a c => a * 10 + (c.toNat - 48)) 0
    if n < 4294967296 then some n else none
  else none

/-- One character of `from_fen`'s board-field loop, acting on
`(pieces so far, x, y)`. -/
def fromFenPieceStep (st : List (Square × Piece) × Int × Int) (c : Char) :
    List (Square × Piece) × Int × Int :=
  let lp := st.1
  let x := st.2.1
  let y := st.2.2
  let color : PieceColor := if c.toLower = c then .Black else .White
  let ins (t : PieceType) (hm : Bool) : List (Square × Piece) × Int × Int :=
    (insertSq lp ⟨x, y⟩ ⟨t, color, ⟨x, y⟩, hm⟩, i8add x 1, y)
  match c.toUpper with
  | '/' => (lp, 0, i8add y (-1))
  | 'K' => ins .King false
  | 'Q' => ins .Queen true
  | 'B' => ins .Bishop true
  | 'N' => ins .Knight true
  | 'R' => ins .Rook true
  | 'P' =>
    ins .Pawn
      (if y = (match color with | .White => (1 : Int) | .Black => 6) then false
       else true)
  | _ =>
    match parseDigit c with
    | some i => (lp, i8add x i, y)
    | none => ins .Pawn true

/-- `from_fen`'s castling-rights application: clear the `has_moved` flag of
whatever piece sits on the given corner square. -/
def clearMovedAt (g : Game) (sq : Square) : Game :=
  match lookupSq g.live_pieces sq with
  | some rook =>
    let rook2 : Piece := { rook with has_moved := false }
    { g with live_pieces := replaceSq g.live_pieces sq rook2 }
  | none => g

/-- `Game::from_fen`.  Each missing trailing field returns early, exactly as
in the source (in particular a FEN with fewer than six fields skips the
bitmap rebuild and the final `post_move`). -/
def from_fen (fen : String) : Game :=
  let game0 := Game.new
  let fields := split_whitespace (strTrim fen)
  if fields.length < 1 then game0
  else
    let parsed := (fields.getD 0 "").toList.foldl fromFenPieceStep
      ([], (0 : Int), (7 : Int))
    let game1 := { game0 with live_pieces := parsed.1 }
    if fields.length < 2 then game1
    else
      let game2 := { game1 with
        turn := if fields.getD 1 "" = "b" then PieceColor.White
                else PieceColor.Black }
      if fields.length < 3 then game2
      else
        let f2 := (fields.getD 2 "").toList
        let game3a := if f2.contains 'Q' then clearMovedAt game2 ⟨0, 0⟩ else game2
        let game3b := if f2.contains 'K' then clearMovedAt game3a ⟨7, 0⟩ else game3a
        let game3c := if f2.contains 'q' then clearMovedAt game3b ⟨0, 7⟩ else game3b
        let game3 := if f2.contains 'k' then clearMovedAt game3c ⟨7, 7⟩ else game3c
        if fields.length < 4 then game3
        else
          let game4 :=
            if fields.getD 3 "" ≠ "-" then
              let lmt := Square.ofStr (fields.getD 3 "")
              { game3 with
                last_moved_to := lmt,
                last_moved_from := lmt.moved 0
                  (match game3.turn with | .White => 2 | .Black => -2) }
            else game3
          if fields.length < 5 then game4
          else
            let game5 :=
              match parseU32 (fields.getD 4 "") with
              | some n => { game4 with fifty_move_rule := n }
              | none => game4
            if fields.length < 6 then game5
            else
              let game6 : Game :=
                match parseU32 (fields.getD 5 "") with
                | some n => { game5 with fullmoves := n }
                | none => game5
              let game7 :=
                if game6.turn = PieceColor.Black ∧ 0 < game6.fullmoves then
                  { game6 with fullmoves := game6.fullmoves - 1 }
                else game6
              let game8 := { game7 with
                white_bitmap := make_color_bitmap game7.live_pieces .White,
                black_bitmap := make_color_bitmap game7.live_pieces .Black }
              post_move game8

/-- The FEN letter of a piece. -/
def pieceChar (p : Piece) : Char :=
  let c : Char :=
    match p.piece_type with
    | .King => 'K' | .Queen => 'Q' | .Bishop => 'B'
    | .Knight => 'N' | .Rook => 'R' | .Pawn => 'P'
  if p.color = PieceColor.Black then c.toLower else c

/-- One rank of `to_fen`'s board field (files 0..7 with an empty-run counter). -/
def fenRow (g : Game) (y : Int) : String :=
  let st := (List.range 8).foldl
    (fun (acc : String × Nat) i =>
      match lookupSq g.live_pieces ⟨Int.ofNat i, y⟩ with
      | some piece =>
        let a := if 0 < acc.2 then acc.1 ++ toString acc.2 else acc.1
        (a.push (pieceChar piece), 0)
      | none => (acc.1, acc.2 + 1))
    ("", 0)
  if 0 < st.2 then st.1 ++ toString st.2 else st.1

/-- `to_fen`'s castling-rights field (recomputed from the corner pieces). -/
def toFenCastling (g : Game) : String :=
  let side (ky : Int) (kc qc : String) : String :=
    match lookupSq g.live_pieces ⟨4, ky⟩ with
    | some king =>
      if king.piece_type = PieceType.King ∧ king.has_moved = false then
        (match lookupSq g.live_pieces ⟨7, ky⟩ with
         | some rook =>
           if rook.piece_type = PieceType.Rook ∧ rook.has_moved = false then kc
           else ""
         | none => "") ++
        (match lookupSq g.live_pieces ⟨0, ky⟩ with
         | some rook =>
           if rook.piece_type = PieceType.Rook ∧ rook.has_moved = false then qc
           else ""
         | none => "")
      else ""
    | none => ""
  let s := side 0 "K" "Q" ++ side 7 "k" "q"
  if s ≠ "" then s ++ " " else "- "

/-- `to_fen`'s en-passant field (recomputed from the last move). -/
def toFenEnPassant (g : Game) : String :=
  match lookupSq g.live_pieces g.last_moved_to with
  | some pawn =>
    if pawn.piece_type = PieceType.Pawn ∧
        g.last_moved_from.moved 0 (pawn.get_direction * 2) = g.last_moved_to then
      strToLower g.last_moved_to.to_notation ++ " "
    else "- "
  | none => "- "

/-- `Game::to_fen`. -/
def to_fen (g : Game) : String :=
  String.intercalate "/"
      ((List.range 8).map (fun i => fenRow g (7 - Int.ofNat i))) ++
    (match g.turn with | .White => " w " | .Black => " b ") ++
    toFenCastling g ++
    toFenEnPassant g ++
    toString g.fifty_move_rule ++ " " ++ toString g.fullmoves

/-- The mover's own color bitmap, as `legal_moves` selects it. -/
def ownBitmapOf (g : Game) (c : PieceColor) : Nat :=
  match c with
  | .White => g.white_bitmap
  | .Black => g.black_bitmap

/-- The opposing color bitmap, as `legal_moves` selects it. -/
def otherBitmapOf (g : Game) (c : PieceColor) : Nat :=
  match c with
  | .White => g.black_bitmap
  | .Black => g.white_bitmap

/-- The state `post_move` has built just before its final mate/stalemate
scan (after the turn flip). -/
def preTerminalState (g : Game) : Game :=
  turnFlipPhase (fullmovePhase (materialPhase
    (repetitionPhase (fiftyPhase (checkPhase g)))))

/-- Whether `post_move g`'s final scan detects a checkmate (no legal move
for the new side to move while its king is in check); only in that case can
the scan overwrite a draw that the earlier steps recorded. -/
def postMoveMateDetected (g : Game) : Bool :=
  let g6 := preTerminalState g
  (!g6.live_pieces.any (fun pr =>
    decide (pr.2.color = g6.turn) && decide (legal_moves g6 pr.2 ≠ 0))) &&
  g6.check

end Game

/-- Whether a square lies on the board. -/
def Square.inBoard (s : Square) : Prop :=
  0 ≤ s.x ∧ s.x < 8 ∧ 0 ≤ s.y ∧ s.y < 8

instance (s : Square) : Decidable s.inBoard := by
  unfold Square.inBoard; infer_instance

/-- The bit index of an on-board square. -/
def Square.natIdx (s : Square) : Nat := (s.y * 8 + s.x).toNat

/-- A state reachable by `from_fen`: the FEN castling field `Q` marks the
black rook standing on a1 as unmoved, while e1 holds the unmoved white
king; White to move. -/
def enemyRookCastleGame : Game :=
  Game.from_fen "7k/8/8/8/8/8/8/rn2K3 w Q - 0 1"

/-- The state after White plays the long castle e1-c1 offered by
`legal_moves` in `enemyRookCastleGame`. -/
def afterEnemyRookCastle : Game :=
  (Game.do_move enemyRookCastleGame ⟨4, 0⟩ ⟨2, 0⟩).2

/-- A state reachable by `from_fen`: white king e1 and rook a1 are unmoved
with castling right `Q`, but the in-between square b1 holds a black
knight; c1 and d1 are empty and nothing attacks c1, d1 or e1. -/
def occupiedBetweenGame : Game :=
  Game.from_fen "k7/8/8/8/8/8/8/Rn2K3 w Q - 0 1"

/-- A state reachable by `from_fen`: black king a4 next to the undefended
white pawn b4, Black to move, game ongoing. -/
def overwriteBase : Game :=
  Game.from_fen "8/8/8/8/kP6/8/8/7K b - - 0 1"

/-- `overwriteBase` after `declare_win(White)`: the result is terminal. -/
def overwriteWon : Game := Game.declare_win overwriteBase PieceColor.White

/-- A complete, standard six-field FEN whose en-passant field is `f3`
(White just played f2-f4, Black to move). -/
def epRoundTripFen : String := "k7/8/8/8/5P2/8/8/K7 b - f3 0 1"

/-- A state reachable by `from_fen` whose pieces are exactly the two kings
plus two bishops (four pieces in total). -/
def fourMinorsGame : Game :=
  Game.from_fen "k7/8/8/8/8/8/8/KBB5 w - - 0 1"

/-- A three-piece witness state (white king a1, white bishop b1, black
king h8), White to move, used to instantiate the insufficient-material
theorem. -/
def materialWitnessGame : Game :=
  { live_pieces :=
      [(⟨0, 0⟩, ⟨.King, .White, ⟨0, 0⟩, true⟩),
       (⟨1, 0⟩, ⟨.Bishop, .White, ⟨1, 0⟩, true⟩),
       (⟨7, 7⟩, ⟨.King, .Black, ⟨7, 7⟩, true⟩)]
    fifty_move_rule := 0
    previous_states := []
    white_bitmap := 3
    black_bitmap := 0x8000000000000000
    turn := .White
    result := .Ongoing
    last_moved_from := ⟨-1, -1⟩
    last_moved_to := ⟨-1, -1⟩
    capture := false
    check := false
    promotion := false
    white_captured_pieces := []
    black_captured_pieces := []
    fullmoves := 1 }

/-- A witness state for the repetition theorem, before its canonical
encoding is put into the history (white king a1, white rook a7, black king
h8, White to move). -/
def repWitnessBase : Game :=
  { live_pieces :=
      [(⟨0, 0⟩, ⟨.King, .White, ⟨0, 0⟩, true⟩),
       (⟨0, 6⟩, ⟨.Rook, .White, ⟨0, 6⟩, true⟩),
       (⟨7, 7⟩, ⟨.King, .Black, ⟨7, 7⟩, true⟩)]
    fifty_move_rule := 0
    previous_states := []
    white_bitmap := 0x0001000000000001
    black_bitmap := 0x8000000000000000
    turn := .White
    result := .Ongoing
    last_moved_from := ⟨-1, -1⟩
    last_moved_to := ⟨-1, -1⟩
    capture := false
    check := false
    promotion := false
    white_captured_pieces := []
    black_captured_pieces := []
    fullmoves := 1 }

/-- `repWitnessBase` with its own canonical encoding already counted twice
in the repetition history. -/
def repWitnessGame : Game :=
  { repWitnessBase with
    previous_states := [(BoardValue.ofGame repWitnessBase, 2)] }

/-- A state reachable by `from_fen` in which White can play the double pawn
advance e2-e4 next to the black pawn d4. -/
def epWitnessStart : Game :=
  Game.from_fen "k7/8/8/8/3p4/8/4P3/K7 w - - 0 1"

/-- `epWitnessStart` after the double advance e2-e4. -/
def epWitnessAfter : Game :=
  (Game.do_move epWitnessStart ⟨4, 1⟩ ⟨4, 3⟩).2

/-- The black d4-pawn of `epWitnessAfter`. -/
def epWitnessPawn : Piece := ⟨.Pawn, .Black, ⟨3, 3⟩, true⟩

/-! ### Lemmas about the `i8` and bitmap primitives -/

theorem wrap8_eq_self {n : Int} (h1 : -128 ≤ n) (h2 : n ≤ 127) :
    wrap8 n = n := by
  unfold wrap8; omega

theorem i8add_eq {a b : Int} (h1 : -128 ≤ a + b) (h2 : a + b ≤ 127) :
    i8add a b = a + b := by
  unfold i8add; exact wrap8_eq_self h1 h2

theorem Square.natIdx_lt {s : Square} (h : s.inBoard) : s.natIdx < 64 := by
  obtain ⟨h1, h2, h3, h4⟩ := h
  unfold Square.natIdx; omega

theorem Square.to_bitmap_eq (s : Square) :
    s.to_bitmap = if s.inBoard then 2 ^ s.natIdx else 0 := by
  unfold Square.to_bitmap Square.inBoard Square.natIdx
  by_cases h : 0 ≤ s.x ∧ s.x < 8 ∧ 0 ≤ s.y ∧ s.y < 8
  · rw [if_neg (by omega), if_pos h, Nat.shiftLeft_eq, Nat.shiftLeft_eq,
      one_mul, ← pow_add]
    congr 1
    omega
  · rw [if_pos (by omega), if_neg h]

theorem Square.inBoard_of_to_bitmap_ne_zero {s : Square}
    (h : s.to_bitmap ≠ 0) : s.inBoard := by
  rw [Square.to_bitmap_eq] at h
  by_cases hb : s.inBoard
  · exact hb
  · rw [if_neg hb] at h
    exact absurd rfl h

theorem Square.natIdx_inj {s t : Square} (hs : s.inBoard) (ht : t.inBoard)
    (h : s.natIdx = t.natIdx) : s = t := by
  obtain ⟨hs1, hs2, hs3, hs4⟩ := hs
  obtain ⟨ht1, ht2, ht3, ht4⟩ := ht
  unfold Square.natIdx at h
  cases s
  cases t
  simp only [Square.mk.injEq]
  simp only at hs1 hs2 hs3 hs4 ht1 ht2 ht3 ht4 h
  omega

theorem Square.testBit_to_bitmap {s : Square} {i : Nat} :
    s.to_bitmap.testBit i = true ↔ s.inBoard ∧ i = s.natIdx := by
  rw [Square.to_bitmap_eq]
  by_cases hb : s.inBoard
  · rw [if_pos hb, Nat.testBit_two_pow]
    simp [hb, eq_comm]
  · rw [if_neg hb]
    simp [hb, Nat.zero_testBit]

theorem land_ne_zero_iff_exists {a b : Nat} :
    a &&& b ≠ 0 ↔ ∃ i, a.testBit i = true ∧ b.testBit i = true := by
  constructor
  · intro h
    obtain ⟨i, hi⟩ := Nat.ne_zero_implies_bit_true h
    rw [Nat.testBit_and] at hi
    exact ⟨i, (Bool.and_eq_true _ _).mp hi⟩
  · rintro ⟨i, h1, h2⟩ hz
    have : (a &&& b).testBit i = true := by
      rw [Nat.testBit_and, h1, h2]; rfl
    rw [hz, Nat.zero_testBit] at this
    exact Bool.false_ne_true this

theorem land_to_bitmap_ne_zero_iff {a : Nat} {s : Square} :
    a &&& s.to_bitmap ≠ 0 ↔ s.inBoard ∧ a.testBit s.natIdx = true := by
  rw [land_ne_zero_iff_exists]
  constructor
  · rintro ⟨i, h1, h2⟩
    obtain ⟨hb, hidx⟩ := Square.testBit_to_bitmap.mp h2
    exact ⟨hb, hidx ▸ h1⟩
  · rintro ⟨hb, h1⟩
    exact ⟨s.natIdx, h1, Square.testBit_to_bitmap.mpr ⟨hb, rfl⟩⟩

theorem land_to_bitmap_eq_zero_iff {a : Nat} {s : Square} (hb : s.inBoard) :
    a &&& s.to_bitmap = 0 ↔ a.testBit s.natIdx = false := by
  rw [← not_ne_iff, land_to_bitmap_ne_zero_iff]
  simp [hb]

theorem testBit_not64 {x i : Nat} (h : i < 64) :
    (not64 x).testBit i = !x.testBit i := by
  unfold not64 mask64
  rw [Nat.testBit_xor, Nat.testBit_two_pow_sub_one]
  simp [h, Bool.xor_comm]

/-! ### What each `post_move` phase leaves untouched -/

namespace Game

theorem checkPhase_fields (g : Game) :
    (checkPhase g).live_pieces = g.live_pieces ∧
    (checkPhase g).last_moved_from = g.last_moved_from ∧
    (checkPhase g).last_moved_to = g.last_moved_to ∧
    (checkPhase g).previous_states = g.previous_states ∧
    (checkPhase g).result = g.result :=
  ⟨rfl, rfl, rfl, rfl, rfl⟩

theorem fiftyPhase_fields (g : Game) :
    (fiftyPhase g).live_pieces = g.live_pieces ∧
    (fiftyPhase g).last_moved_from = g.last_moved_from ∧
    (fiftyPhase g).last_moved_to = g.last_moved_to ∧
    (fiftyPhase g).previous_states = g.previous_states ∧
    (fiftyPhase g).check = g.check := by
  unfold fiftyPhase
  split <;> exact ⟨rfl, rfl, rfl, rfl, rfl⟩

theorem repetitionPhase_fields (g : Game) :
    (repetitionPhase g).live_pieces = g.live_pieces ∧
    (repetitionPhase g).last_moved_from = g.last_moved_from ∧
    (repetitionPhase g).last_moved_to = g.last_moved_to ∧
    (repetitionPhase g).check = g.check := by
  unfold repetitionPhase
  cases h : lookupBV g.previous_states (BoardValue.ofGame g) <;> simp [h]

theorem materialPhase_fields (g : Game) :
    (materialPhase g).live_pieces = g.live_pieces ∧
    (materialPhase g).last_moved_from = g.last_moved_from ∧
    (materialPhase g).last_moved_to = g.last_moved_to ∧
    (materialPhase g).previous_states = g.previous_states ∧
    (materialPhase g).check = g.check := by
  unfold materialPhase
  split
  · split <;> exact ⟨rfl, rfl, rfl, rfl, rfl⟩
  · exact ⟨rfl, rfl, rfl, rfl, rfl⟩

theorem fullmovePhase_fields (g : Game) :
    (fullmovePhase g).live_pieces = g.live_pieces ∧
    (fullmovePhase g).last_moved_from = g.last_moved_from ∧
    (fullmovePhase g).last_moved_to = g.last_moved_to ∧
    (fullmovePhase g).previous_states = g.previous_states ∧
    (fullmovePhase g).result = g.result ∧
    (fullmovePhase g).check = g.check := by
  unfold fullmovePhase
  split <;> exact ⟨rfl, rfl, rfl, rfl, rfl, rfl⟩

theorem turnFlipPhase_fields (g : Game) :
    (turnFlipPhase g).live_pieces = g.live_pieces ∧
    (turnFlipPhase g).last_moved_from = g.last_moved_from ∧
    (turnFlipPhase g).last_moved_to = g.last_moved_to ∧
    (turnFlipPhase g).previous_states = g.previous_states ∧
    (turnFlipPhase g).result = g.result ∧
    (turnFlipPhase g).check = g.check :=
  ⟨rfl, rfl, rfl, rfl, rfl, rfl⟩

theorem terminalPhase_fields (g : Game) :
    (terminalPhase g).live_pieces = g.live_pieces ∧
    (terminalPhase g).last_moved_from = g.last_moved_from ∧
    (terminalPhase g).last_moved_to = g.last_moved_to ∧
    (terminalPhase g).previous_states = g.previous_states := by
  unfold terminalPhase
  split <;> exact ⟨rfl, rfl, rfl, rfl⟩

theorem post_move_eq_terminal_preTerminal (g : Game) :
    post_move g = terminalPhase (preTerminalState g) := rfl

theorem checkPhase_flags (g : Game) :
    (checkPhase g).capture = g.capture ∧
    (checkPhase g).promotion = g.promotion :=
  ⟨rfl, rfl⟩

theorem fiftyPhase_flags (g : Game) :
    (fiftyPhase g).capture = g.capture ∧
    (fiftyPhase g).promotion = g.promotion := by
  unfold fiftyPhase
  split <;> exact ⟨rfl, rfl⟩

theorem repetitionPhase_flags (g : Game) :
    (repetitionPhase g).capture = g.capture ∧
    (repetitionPhase g).promotion = g.promotion := by
  unfold repetitionPhase
  cases h : lookupBV g.previous_states (BoardValue.ofGame g) <;> simp [h]

theorem materialPhase_flags (g : Game) :
    (materialPhase g).capture = g.capture ∧
    (materialPhase g).promotion = g.promotion := by
  unfold materialPhase
  split
  · split <;> exact ⟨rfl, rfl⟩
  · exact ⟨rfl, rfl⟩

theorem fullmovePhase_flags (g : Game) :
    (fullmovePhase g).capture = g.capture ∧
    (fullmovePhase g).promotion = g.promotion := by
  unfold fullmovePhase
  split <;> exact ⟨rfl, rfl⟩

theorem turnFlipPhase_flags (g : Game) :
    (turnFlipPhase g).capture = g.capture ∧
    (turnFlipPhase g).promotion = g.promotion :=
  ⟨rfl, rfl⟩

theorem terminalPhase_flags (g : Game) :
    (terminalPhase g).capture = g.capture ∧
    (terminalPhase g).promotion = g.promotion := by
  unfold terminalPhase
  split <;> exact ⟨rfl, rfl⟩

theorem post_move_live_pieces (g : Game) :
    (post_move g).live_pieces = g.live_pieces := by
  rw [post_move_eq_terminal_preTerminal, (terminalPhase_fields _).1]
  unfold preTerminalState
  rw [(turnFlipPhase_fields _).1, (fullmovePhase_fields _).1,
    (materialPhase_fields _).1, (repetitionPhase_fields _).1,
    (fiftyPhase_fields _).1, (checkPhase_fields _).1]

theorem post_move_capture (g : Game) :
    (post_move g).capture = g.capture := by
  rw [post_move_eq_terminal_preTerminal, (terminalPhase_flags _).1]
  unfold preTerminalState
  rw [(turnFlipPhase_flags _).1, (fullmovePhase_flags _).1,
    (materialPhase_flags _).1, (repetitionPhase_flags _).1,
    (fiftyPhase_flags _).1, (checkPhase_flags _).1]

theorem post_move_promotion (g : Game) :
    (post_move g).promotion = g.promotion := by
  rw [post_move_eq_terminal_preTerminal, (terminalPhase_flags _).2]
  unfold preTerminalState
  rw [(turnFlipPhase_flags _).2, (fullmovePhase_flags _).2,
    (materialPhase_flags _).2, (repetitionPhase_flags _).2,
    (fiftyPhase_flags _).2, (checkPhase_flags _).2]

theorem post_move_last_moved (g : Game) :
    (post_move g).last_moved_from = g.last_moved_from ∧
    (post_move g).last_moved_to = g.last_moved_to := by
  rw [post_move_eq_terminal_preTerminal]
  unfold preTerminalState
  constructor
  · rw [(terminalPhase_fields _).2.1, (turnFlipPhase_fields _).2.1,
      (fullmovePhase_fields _).2.1, (materialPhase_fields _).2.1,
      (repetitionPhase_fields _).2.1, (fiftyPhase_fields _).2.1,
      (checkPhase_fields _).2.1]
  · rw [(terminalPhase_fields _).2.2.1, (turnFlipPhase_fields _).2.2.1,
      (fullmovePhase_fields _).2.2.1, (materialPhase_fields _).2.2.1,
      (repetitionPhase_fields _).2.2.1, (fiftyPhase_fields _).2.2.1,
      (checkPhase_fields _).2.2.1]

end Game

/-- `BoardValue.ofGame` only reads the piece map and the last-move squares. -/
theorem BoardValue.ofGame_congr {g h : Game}
    (hl : g.live_pieces = h.live_pieces)
    (hf : g.last_moved_from = h.last_moved_from)
    (ht : g.last_moved_to = h.last_moved_to) :
    BoardValue.ofGame g = BoardValue.ofGame h := by
  unfold BoardValue.ofGame
  rw [hl, hf, ht]

/-! ### The claims -/

/-- C1: the no-self-check invariant fails on the code.  In the reachable
state `enemyRookCastleGame` (built by `from_fen`, whose castling field `Q`
marks the *black* rook on a1 as unmoved), the legal-move computation for the
white king on e1 — the side to move — offers the destination c1 (the long
castle), `do_move` accepts it, and in the resulting position the black rook
(relocated to d1 by the castle) has a pseudo-legal move onto c1, the square
of the white king. -/
theorem legal_castle_leaves_king_attacked :
    Game.get_moves_bitmap enemyRookCastleGame ⟨4, 0⟩ &&&
      (Square.mk 2 0).to_bitmap ≠ 0 ∧
    (Game.do_move enemyRookCastleGame ⟨4, 0⟩ ⟨2, 0⟩).1 = true ∧
    lookupSq afterEnemyRookCastle.live_pieces ⟨2, 0⟩ =
      some ⟨.King, .White, ⟨2, 0⟩, true⟩ ∧
    lookupSq afterEnemyRookCastle.live_pieces ⟨3, 0⟩ =
      some ⟨.Rook, .Black, ⟨3, 0⟩, true⟩ ∧
    Game.psuedo_legal_moves afterEnemyRookCastle ⟨.Rook, .Black, ⟨3, 0⟩, true⟩
        afterEnemyRookCastle.black_bitmap afterEnemyRookCastle.white_bitmap &&&
      (Square.mk 2 0).to_bitmap ≠ 0 := by
  decide

/-- C2: the occupancy-mask/piece-map consistency invariant fails on the
code.  After the enemy-rook castle of `enemyRookCastleGame`, a1 is empty in
the piece map but still set in `black_bitmap`, the black rook now on d1 is
counted in `white_bitmap` instead of `black_bitmap`, and the union of the
per-color masks no longer equals the union of the occupied squares of the
piece map (hence neither the per-type mask union nor the key set). -/
theorem bitmap_map_desync_after_enemy_rook_castle :
    lookupSq afterEnemyRookCastle.live_pieces ⟨0, 0⟩ = none ∧
    afterEnemyRookCastle.black_bitmap.testBit 0 = true ∧
    lookupSq afterEnemyRookCastle.live_pieces ⟨3, 0⟩ =
      some ⟨.Rook, .Black, ⟨3, 0⟩, true⟩ ∧
    afterEnemyRookCastle.white_bitmap.testBit 3 = true ∧
    afterEnemyRookCastle.black_bitmap.testBit 3 = false ∧
    (make_color_bitmap afterEnemyRookCastle.live_pieces .White |||
        make_color_bitmap afterEnemyRookCastle.live_pieces .Black) ≠
      (afterEnemyRookCastle.white_bitmap ||| afterEnemyRookCastle.black_bitmap) := by
  decide

/-- C3 (counterexample): a terminal result is not absorbing under
`do_move`.  `overwriteWon` has result `WhiteWon` (set by `declare_win`
from the ongoing state `overwriteBase`), yet `do_move` still accepts the
black king's capture a4xb4, whose bookkeeping (insufficient material:
two bare kings) overwrites the result with `Draw`. -/
theorem terminal_result_overwritten_by_do_move :
    overwriteBase.result = ChessResult.Ongoing ∧
    overwriteWon.result = ChessResult.WhiteWon ∧
    (Game.do_move overwriteWon ⟨0, 3⟩ ⟨1, 3⟩).1 = true ∧
    (Game.do_move overwriteWon ⟨0, 3⟩ ⟨1, 3⟩).2.result = ChessResult.Draw := by
  decide

/-- C3 (amended): `declare_draw` and `declare_win` are effective only while
the result is `Ongoing` — on any state with a terminal result they change
nothing at all.  (The absorbing property does not extend to `do_move` /
`post_move`, which are not gated on the result; see the counterexample.) -/
theorem declare_only_while_ongoing (g : Game) (c : PieceColor)
    (h : g.result ≠ ChessResult.Ongoing) :
    Game.declare_draw g = g ∧ Game.declare_win g c = g := by
  unfold Game.declare_draw Game.declare_win
  rw [if_neg h, if_neg h]
  exact ⟨rfl, rfl⟩

theorem declare_only_while_ongoing_witness :
    Game.declare_draw overwriteWon = overwriteWon ∧
    Game.declare_win overwriteWon PieceColor.Black = overwriteWon :=
  declare_only_while_ongoing overwriteWon PieceColor.Black (by decide)

/-- C4: castling is offered although a square strictly between king and
rook is occupied.  In the reachable state `occupiedBetweenGame` the white
king e1 and white rook a1 are unmoved, the king is not in check, c1/d1 are
empty and unattacked — but b1 holds a black knight, and the legal-move set
of the king still contains the long-castle destination c1 (the ray test
`bitmap_line` treats the enemy piece on b1 as a capturable stop instead of
an obstruction). -/
theorem long_castle_allowed_with_occupied_between_square :
    lookupSq occupiedBetweenGame.live_pieces ⟨4, 0⟩ =
      some ⟨.King, .White, ⟨4, 0⟩, false⟩ ∧
    lookupSq occupiedBetweenGame.live_pieces ⟨0, 0⟩ =
      some ⟨.Rook, .White, ⟨0, 0⟩, false⟩ ∧
    lookupSq occupiedBetweenGame.live_pieces ⟨1, 0⟩ =
      some ⟨.Knight, .Black, ⟨1, 0⟩, true⟩ ∧
    occupiedBetweenGame.check = false ∧
    Game.get_moves_bitmap occupiedBetweenGame ⟨4, 0⟩ &&&
      (Square.mk 2 0).to_bitmap ≠ 0 := by
  decide

/-- C5: the FEN round trip fails on the en-passant field.
`epRoundTripFen` is a complete, standard six-field FEN (White just played
f2-f4, Black to move, en-passant target f3), but `from_fen` stores the
*target square* f3 in `last_moved_to` (where no piece stands), so
`to_fen` finds no pawn there and serializes `-`: the round trip returns a
different string. -/
theorem fen_roundtrip_fails_on_en_passant_field :
    Game.to_fen (Game.from_fen epRoundTripFen) ≠ epRoundTripFen ∧
    Game.to_fen (Game.from_fen epRoundTripFen) =
      "k7/8/8/8/5P2/8/8/K7 b - - 0 1" := by
  decide

/-- C10 (counterexample): with the two's complement wrap-around of `i8`
arithmetic (release mode; debug mode panics on this input instead), the
offset (-128, 0) applied to the square (-128, 0) wraps to (0, 0), so
`to_bitmap` yields the *non-empty* mask `1` although the resulting
coordinate -256 lies outside 0–7. -/
theorem moved_overflow_wraps_into_range :
    Square.moved ⟨-128, 0⟩ (-128) 0 = ⟨0, 0⟩ ∧
    (Square.moved ⟨-128, 0⟩ (-128) 0).to_bitmap = 1 ∧
    ((-128 : Int) + -128 < 0) := by
  decide

/-- C10 (amended): for every square and offset whose coordinate sums stay
inside the `i8` range (no overflow), `moved` followed by `to_bitmap` never
fails, yields the empty mask exactly when the resulting coordinates lie
outside 0–7, and yields the single bit `y*8+x` for in-range results. -/
theorem moved_to_bitmap_in_i8_range (x y dx dy : Int)
    (hx1 : -128 ≤ x + dx) (hx2 : x + dx ≤ 127)
    (hy1 : -128 ≤ y + dy) (hy2 : y + dy ≤ 127) :
    (Square.moved ⟨x, y⟩ dx dy).to_bitmap =
      if 0 ≤ x + dx ∧ x + dx < 8 ∧ 0 ≤ y + dy ∧ y + dy < 8 then
        2 ^ ((y + dy) * 8 + (x + dx)).toNat
      else 0 := by
  unfold Square.moved
  rw [i8add_eq hx1 hx2, i8add_eq hy1 hy2, Square.to_bitmap_eq]
  rfl

theorem moved_to_bitmap_in_i8_range_witness :
    (Square.moved ⟨4, 1⟩ 0 2).to_bitmap = 2 ^ 28 ∧
    (Square.moved ⟨4, 1⟩ 9 0).to_bitmap = 0 := by
  have h1 := moved_to_bitmap_in_i8_range 4 1 0 2
    (by norm_num) (by norm_num) (by norm_num) (by norm_num)
  have h2 := moved_to_bitmap_in_i8_range 4 1 9 0
    (by norm_num) (by norm_num) (by norm_num) (by norm_num)
  rw [h1, h2]
  decide

/-- `force_move` cannot fail when the destination is on the board and no
promotion is pending (the only two error paths of the source). -/
theorem force_move_ok (g : Game) (p : Piece) (t : Square)
    (hb : ¬(7 < t.x ∨ 7 < t.y)) (hp : ¬(g.promotion = true)) :
    ∃ g2, Game.force_move g p t = Except.ok g2 := by
  unfold Game.force_move
  rw [if_neg hb, if_neg hp]
  exact ⟨_, rfl⟩

/-- C8: `do_move(from, to)` returns `false` — leaving the whole state
unchanged — exactly when no piece stands on `from`, or that piece is not of
the side to move, or a promotion is pending, or `to` is not among the
freshly recomputed legal destinations of that piece.  In particular any
move attempt while the promotion flag is set is a no-op failure, and the
out-of-bounds error path of `force_move` is unreachable from `do_move`
(a legal destination always has a non-zero bitmap), so the embedding — like
the source — never aborts. -/
theorem do_move_failure_iff (g : Game) (f t : Square) :
    ((Game.do_move g f t).1 = false ∧ (Game.do_move g f t).2 = g) ↔
      (lookupSq g.live_pieces f = none ∨
        ∃ p, lookupSq g.live_pieces f = some p ∧
          (p.color ≠ g.turn ∨ g.promotion = true ∨
            Game.legal_moves g p &&& t.to_bitmap = 0)) := by
  unfold Game.do_move
  cases hl : lookupSq g.live_pieces f with
  | none =>
    simp [hl]
  | some p =>
    simp only [hl]
    by_cases hc : p.color ≠ g.turn
    · rw [if_pos hc]
      exact ⟨fun _ => Or.inr ⟨p, rfl, Or.inl hc⟩, fun _ => ⟨rfl, rfl⟩⟩
    · rw [if_neg hc]
      by_cases hp : g.promotion = true
      · rw [if_pos hp]
        exact ⟨fun _ => Or.inr ⟨p, rfl, Or.inr (Or.inl hp)⟩,
          fun _ => ⟨rfl, rfl⟩⟩
      · rw [if_neg hp]
        by_cases hlm : Game.legal_moves g p &&& t.to_bitmap ≠ 0
        · rw [if_pos hlm]
          have hb0 : t.to_bitmap ≠ 0 := by
            intro h0
            exact hlm (by rw [h0, Nat.and_zero])
          obtain ⟨hx0, hx8, hy0, hy8⟩ :=
            Square.inBoard_of_to_bitmap_ne_zero hb0
          obtain ⟨g2, hok⟩ := force_move_ok g p t (by omega) hp
          rw [hok]
          constructor
          · rintro ⟨hfalse, -⟩
            exact absurd hfalse (by simp)
          · rintro (h | ⟨q, hq, hcase⟩)
            · exact Option.noConfusion h
            · obtain rfl : p = q := Option.some.inj hq
              rcases hcase with h1 | h2 | h3
              · exact absurd h1 hc
              · exact absurd h2 hp
              · exact absurd h3 hlm
        · rw [if_neg hlm]
          exact ⟨fun _ => Or.inr ⟨p, rfl, Or.inr (Or.inr (not_ne_iff.mp hlm))⟩,
            fun _ => ⟨rfl, rfl⟩⟩

theorem do_move_failure_iff_witness :
    (Game.do_move Game.new ⟨4, 4⟩ ⟨4, 5⟩).1 = false ∧
    (Game.do_move Game.new ⟨4, 4⟩ ⟨4, 5⟩).2 = Game.new :=
  (do_move_failure_iff Game.new ⟨4, 4⟩ ⟨4, 5⟩).mpr (Or.inl (by decide))

/-! ### Result propagation through the tail of `post_move` -/

theorem Game.materialPhase_result_draw (g : Game)
    (h : g.result = ChessResult.Draw) :
    (Game.materialPhase g).result = ChessResult.Draw := by
  unfold Game.materialPhase
  split
  · split
    · rfl
    · exact h
  · exact h

theorem Game.terminalPhase_result_draw {g : Game}
    (hres : g.result = ChessResult.Draw)
    (hmate : ((!g.live_pieces.any fun pr =>
        decide (pr.2.color = g.turn) &&
        decide (Game.legal_moves g pr.2 ≠ 0)) && g.check) = false) :
    (Game.terminalPhase g).result = ChessResult.Draw := by
  unfold Game.terminalPhase
  split
  · next h =>
    have hc : g.check = false := by
      rw [h] at hmate
      simpa using hmate
    show (if g.check = true then _ else ChessResult.Draw) = ChessResult.Draw
    rw [hc]
    simp
  · exact hres

theorem Game.repetitionPhase_previous_states (g : Game) :
    (Game.repetitionPhase g).previous_states =
      (match lookupBV g.previous_states (BoardValue.ofGame g) with
       | some v =>
         replaceBV g.previous_states (BoardValue.ofGame g) ((v + 1) % 256)
       | none => (BoardValue.ofGame g, 1) :: g.previous_states) := by
  unfold Game.repetitionPhase
  cases h : lookupBV g.previous_states (BoardValue.ofGame g) <;> simp [h]

theorem Game.repetitionPhase_result_draw {g : Game} {c : Nat}
    (h : lookupBV g.previous_states (BoardValue.ofGame g) = some c)
    (h2 : 2 ≤ c) (h3 : c ≤ 254) :
    (Game.repetitionPhase g).result = ChessResult.Draw := by
  unfold Game.repetitionPhase
  simp only [h]
  have hm : (c + 1) % 256 = c + 1 := Nat.mod_eq_of_lt (by omega)
  show (if 3 ≤ (c + 1) % 256 then ChessResult.Draw else g.result) =
    ChessResult.Draw
  rw [hm, if_pos (by omega)]

/-- The canonical encoding is unchanged by the check and fifty-move phases. -/
theorem Game.bv_fifty_check (g : Game) :
    BoardValue.ofGame (Game.fiftyPhase (Game.checkPhase g)) =
      BoardValue.ofGame g :=
  BoardValue.ofGame_congr
    (by rw [(Game.fiftyPhase_fields _).1, (Game.checkPhase_fields _).1])
    (by rw [(Game.fiftyPhase_fields _).2.1, (Game.checkPhase_fields _).2.1])
    (by rw [(Game.fiftyPhase_fields _).2.2.1, (Game.checkPhase_fields _).2.2.1])

/-- Every run of `post_move` bumps the current canonical encoding's count in
the repetition history, inserting it with count 1 if absent. -/
theorem Game.post_move_previous_states (g : Game) :
    (Game.post_move g).previous_states =
      (match lookupBV g.previous_states (BoardValue.ofGame g) with
       | some v =>
         replaceBV g.previous_states (BoardValue.ofGame g) ((v + 1) % 256)
       | none => (BoardValue.ofGame g, 1) :: g.previous_states) := by
  have hk := Game.checkPhase_fields g
  have hf := Game.fiftyPhase_fields (Game.checkPhase g)
  rw [Game.post_move_eq_terminal_preTerminal,
    (Game.terminalPhase_fields _).2.2.2]
  unfold Game.preTerminalState
  rw [(Game.turnFlipPhase_fields _).2.2.2.1,
    (Game.fullmovePhase_fields _).2.2.2.1,
    (Game.materialPhase_fields _).2.2.2.1,
    Game.repetitionPhase_previous_states,
    Game.bv_fifty_check, hf.2.2.2.1, hk.2.2.2.1]

/-- The canonical encoding of the state `post_move` returns is that of its
argument (the bookkeeping never moves pieces). -/
theorem Game.bv_post_move (g : Game) :
    BoardValue.ofGame (Game.post_move g) = BoardValue.ofGame g :=
  BoardValue.ofGame_congr (Game.post_move_live_pieces g)
    (Game.post_move_last_moved g).1 (Game.post_move_last_moved g).2

/-- The castle branch of `force_move` only relocates the rook: the
repetition history, capture flag and promotion flag are untouched. -/
theorem Game.castleRelocation_fields (g : Game) (p : Piece) (t : Square) :
    (Game.castleRelocation g p t).1.previous_states = g.previous_states ∧
    (Game.castleRelocation g p t).1.capture = g.capture ∧
    (Game.castleRelocation g p t).1.promotion = g.promotion := by
  unfold Game.castleRelocation
  split
  · split
    · cases hlk : lookupSq g.live_pieces (Square.ofPair (0, p.pos.y)) <;>
        simp [hlk]
    · split
      · cases hlk : lookupSq g.live_pieces (Square.ofPair (7, p.pos.y)) <;>
          simp [hlk]
      · exact ⟨rfl, rfl, rfl⟩
  · exact ⟨rfl, rfl, rfl⟩

/-- The capture branch of `force_move` either does nothing at all or ends
with the capture flag set. -/
theorem Game.forceMoveCaptureStep_cases (g : Game) (t : Square) :
    Game.forceMoveCaptureStep g t = g ∨
    (Game.forceMoveCaptureStep g t).capture = true := by
  unfold Game.forceMoveCaptureStep
  split
  · exact Or.inr rfl
  · exact Or.inl rfl

/-- The pawn branch of `force_move` either leaves the repetition history
and capture flag unchanged or ends with the capture flag set (en passant). -/
theorem Game.forceMovePawnStep_cases (g : Game) (p : Piece) (t : Square) :
    ((Game.forceMovePawnStep g p t).previous_states = g.previous_states ∧
     (Game.forceMovePawnStep g p t).capture = g.capture) ∨
    (Game.forceMovePawnStep g p t).capture = true := by
  simp only [Game.forceMovePawnStep]
  split
  · split <;> split <;>
      first
        | exact Or.inr rfl
        | exact Or.inl ⟨rfl, rfl⟩
  · exact Or.inl ⟨rfl, rfl⟩

/-- The unconditional tail of `force_move` keeps the repetition history,
capture flag and promotion flag of its input. -/
theorem Game.forceMoveApply_fields (g3 : Game) (p : Piece) (t : Square) :
    (Game.forceMoveApply g3 p t).previous_states = g3.previous_states ∧
    (Game.forceMoveApply g3 p t).capture = g3.capture ∧
    (Game.forceMoveApply g3 p t).promotion = g3.promotion := by
  unfold Game.forceMoveApply
  cases hc : p.color <;> simp only [hc] <;>
    exact ⟨(Game.castleRelocation_fields g3 p t).1,
      (Game.castleRelocation_fields g3 p t).2.1,
      (Game.castleRelocation_fields g3 p t).2.2⟩

/-- A `force_move` whose final capture flag is false ran no capture at all,
so the repetition history is exactly that of the pre-move state. -/
theorem Game.forceMoveCore_no_capture_prev (g : Game) (p : Piece) (t : Square)
    (h : (Game.forceMoveCore g p t).capture = false) :
    (Game.forceMoveCore g p t).previous_states = g.previous_states := by
  unfold Game.forceMoveCore at h ⊢
  rw [(Game.forceMoveApply_fields _ p t).2.1] at h
  rw [(Game.forceMoveApply_fields _ p t).1]
  rcases Game.forceMovePawnStep_cases
      (Game.forceMoveCaptureStep
        ({ g with
           fifty_move_rule := (g.fifty_move_rule + 1) % 4294967296,
           capture := false }) t) p t with ⟨hprev, hcap⟩ | hcap
  · rw [hcap] at h
    rw [hprev]
    rcases Game.forceMoveCaptureStep_cases
        ({ g with
           fifty_move_rule := (g.fifty_move_rule + 1) % 4294967296,
           capture := false }) t with heq | hcapT
    · rw [heq]
    · rw [hcapT] at h
      exact absurd h (by simp)
  · rw [hcap] at h
    exact absurd h (by simp)

/-- Off the two error paths, `force_move` returns exactly
`forceMoveFinish (forceMoveCore ...)`. -/
theorem Game.force_move_ok_eq (g : Game) (p : Piece) (t : Square)
    (hb : ¬(7 < t.x ∨ 7 < t.y)) (hp : ¬(g.promotion = true)) :
    Game.force_move g p t =
      Except.ok (Game.forceMoveFinish (Game.forceMoveCore g p t)) := by
  unfold Game.force_move
  rw [if_neg hb, if_neg hp]

/-- A successful `do_move` produces `forceMoveFinish (forceMoveCore ...)`
for the piece found on the source square. -/
theorem Game.do_move_success_eq {g : Game} {f t : Square} {g2 : Game}
    (h : Game.do_move g f t = (true, g2)) :
    ∃ p, lookupSq g.live_pieces f = some p ∧
      g2 = Game.forceMoveFinish (Game.forceMoveCore g p t) := by
  unfold Game.do_move at h
  cases hl : lookupSq g.live_pieces f with
  | none =>
    simp only [hl] at h
    exact absurd (congrArg Prod.fst h) (by simp)
  | some p =>
    simp only [hl] at h
    by_cases hc : p.color ≠ g.turn
    · rw [if_pos hc] at h
      exact absurd (congrArg Prod.fst h) (by simp)
    · rw [if_neg hc] at h
      by_cases hpr : g.promotion = true
      · rw [if_pos hpr] at h
        exact absurd (congrArg Prod.fst h) (by simp)
      · rw [if_neg hpr] at h
        by_cases hlm : Game.legal_moves g p &&& t.to_bitmap ≠ 0
        · rw [if_pos hlm] at h
          have hb0 : t.to_bitmap ≠ 0 := fun h0 => hlm (by rw [h0, Nat.and_zero])
          obtain ⟨hx0, hx8, hy0, hy8⟩ :=
            Square.inBoard_of_to_bitmap_ne_zero hb0
          rw [Game.force_move_ok_eq g p t (by omega) hpr] at h
          exact ⟨p, rfl, (congrArg Prod.snd h).symm⟩
        · rw [if_neg hlm] at h
          exact absurd (congrArg Prod.fst h) (by simp)

/-- A completed (non-promotion) `do_move` that captured nothing bumps the
count of the resulting position's canonical encoding in the repetition
history carried over unchanged from the pre-move state. -/
theorem Game.do_move_no_capture_bumps {g : Game} {f t : Square} {g2 : Game}
    (h : Game.do_move g f t = (true, g2))
    (hnc : g2.capture = false) (hpr : g2.promotion = false) :
    g2.previous_states =
      (match lookupBV g.previous_states (BoardValue.ofGame g2) with
       | some v =>
         replaceBV g.previous_states (BoardValue.ofGame g2) ((v + 1) % 256)
       | none => (BoardValue.ofGame g2, 1) :: g.previous_states) := by
  obtain ⟨p, hp, hg2⟩ := Game.do_move_success_eq h
  subst hg2
  unfold Game.forceMoveFinish at hnc hpr ⊢
  by_cases hprom : (Game.forceMoveCore g p t).promotion = false
  · rw [if_pos hprom] at hnc ⊢
    rw [Game.post_move_capture] at hnc
    have hprev := Game.forceMoveCore_no_capture_prev g p t hnc
    rw [Game.post_move_previous_states, hprev,
      (Game.bv_post_move (Game.forceMoveCore g p t)).symm]
  · rw [if_neg hprom] at hpr
    exact absurd hpr hprom

/-- C6: the repetition bookkeeping of the code.  (1) `capture` clears the
repetition history whenever a piece is actually taken.  (2) Every run of
the post-move bookkeeping bumps the count of the current canonical
encoding in the history, inserting it with count 1 if absent (`u8`
wrap-around on the bump).  (3) When the current encoding has already been
seen twice (count `c` with `2 ≤ c ≤ 254`), the bookkeeping sets
result = Draw; the final value of `post_move` is `Draw` provided its last
step does not detect a checkmate — the source's mate scan runs last and
takes precedence by design (a stalemate there also yields `Draw`).
(4) Consequently, at the `do_move` level: every completed non-promotion
move that captured nothing carries the history over from the pre-move
state and bumps the count of the resulting position's encoding, so three
capture-free occurrences of one encoding drive its count to 3. -/
theorem repetition_bookkeeping :
    (∀ (g : Game) (sq : Square) (p : Piece),
        lookupSq g.live_pieces sq = some p →
        (Game.captureAt g sq).previous_states = []) ∧
    (∀ g : Game,
        (Game.post_move g).previous_states =
          (match lookupBV g.previous_states (BoardValue.ofGame g) with
           | some v =>
             replaceBV g.previous_states (BoardValue.ofGame g) ((v + 1) % 256)
           | none => (BoardValue.ofGame g, 1) :: g.previous_states)) ∧
    (∀ (g g2 : Game) (f t : Square),
        Game.do_move g f t = (true, g2) →
        g2.capture = false → g2.promotion = false →
        g2.previous_states =
          (match lookupBV g.previous_states (BoardValue.ofGame g2) with
           | some v =>
             replaceBV g.previous_states (BoardValue.ofGame g2) ((v + 1) % 256)
           | none => (BoardValue.ofGame g2, 1) :: g.previous_states)) ∧
    (∀ (g : Game) (c : Nat),
        lookupBV g.previous_states (BoardValue.ofGame g) = some c →
        2 ≤ c → c ≤ 254 →
        Game.postMoveMateDetected g = false →
        (Game.post_move g).result = ChessResult.Draw) := by
  refine ⟨?_, ?_, ?_, ?_⟩
  · intro g sq p h
    unfold Game.captureAt
    simp only [h]
  · intro g
    exact Game.post_move_previous_states g
  · intro g g2 f t h hnc hpr
    exact Game.do_move_no_capture_bumps h hnc hpr
  · intro g c h h2 h3 hmate
    have hk := Game.checkPhase_fields g
    have hf := Game.fiftyPhase_fields (Game.checkPhase g)
    have hlk : lookupBV
        (Game.fiftyPhase (Game.checkPhase g)).previous_states
        (BoardValue.ofGame (Game.fiftyPhase (Game.checkPhase g))) = some c := by
      rw [Game.bv_fifty_check, hf.2.2.2.1, hk.2.2.2.1]
      exact h
    have hr := Game.repetitionPhase_result_draw hlk h2 h3
    have hm := Game.materialPhase_result_draw _ hr
    have hfm : (Game.fullmovePhase (Game.materialPhase (Game.repetitionPhase
        (Game.fiftyPhase (Game.checkPhase g))))).result = ChessResult.Draw := by
      rw [(Game.fullmovePhase_fields _).2.2.2.2.1]
      exact hm
    have ht : (Game.turnFlipPhase (Game.fullmovePhase (Game.materialPhase
        (Game.repetitionPhase (Game.fiftyPhase
          (Game.checkPhase g)))))).result = ChessResult.Draw := by
      rw [(Game.turnFlipPhase_fields _).2.2.2.2.1]
      exact hfm
    rw [Game.post_move_eq_terminal_preTerminal]
    refine Game.terminalPhase_result_draw ?_ ?_
    · unfold Game.preTerminalState
      exact ht
    · unfold Game.postMoveMateDetected at hmate
      exact hmate

theorem repetition_bookkeeping_witness :
    (Game.captureAt repWitnessGame ⟨0, 6⟩).previous_states = [] ∧
    epWitnessAfter.previous_states =
      (match lookupBV epWitnessStart.previous_states
          (BoardValue.ofGame epWitnessAfter) with
       | some v =>
         replaceBV epWitnessStart.previous_states
           (BoardValue.ofGame epWitnessAfter) ((v + 1) % 256)
       | none =>
         (BoardValue.ofGame epWitnessAfter, 1) ::
           epWitnessStart.previous_states) ∧
    (Game.post_move repWitnessGame).result = ChessResult.Draw :=
  ⟨repetition_bookkeeping.1 repWitnessGame ⟨0, 6⟩
      ⟨.Rook, .White, ⟨0, 6⟩, true⟩ (by decide),
   repetition_bookkeeping.2.2.1 epWitnessStart epWitnessAfter ⟨4, 1⟩ ⟨4, 3⟩
      (by decide) (by decide) (by decide),
   repetition_bookkeeping.2.2.2 repWitnessGame 2 (by decide) (by decide)
      (by decide) (by decide)⟩

/-- C7 (counterexample): `fourMinorsGame` consists of exactly the two kings
plus two bishops — four pieces, no queen, rook or pawn — and its post-move
bookkeeping (run by `from_fen`) leaves the result `Ongoing`: the code's
insufficient-material rule only fires with at most three pieces in total,
not with "any number of bishops and/or knights". -/
theorem four_minor_pieces_no_draw :
    fourMinorsGame.live_pieces.length = 4 ∧
    (∀ pr ∈ fourMinorsGame.live_pieces,
      pr.2.piece_type = PieceType.King ∨
      pr.2.piece_type = PieceType.Bishop) ∧
    (fourMinorsGame.live_pieces.filter
      (fun pr => decide (pr.2.piece_type = PieceType.King))).length = 2 ∧
    fourMinorsGame.result = ChessResult.Ongoing := by
  decide

theorem Game.materialPhase_result_of (g : Game)
    (hlen : g.live_pieces.length ≤ 3)
    (htypes : ∀ pr ∈ g.live_pieces,
      pr.2.piece_type = PieceType.King ∨
      pr.2.piece_type = PieceType.Bishop ∨
      pr.2.piece_type = PieceType.Knight) :
    (Game.materialPhase g).result = ChessResult.Draw := by
  unfold Game.materialPhase
  rw [if_pos hlen, if_pos]
  rw [List.all_eq_true]
  intro pr hpr
  rcases htypes pr hpr with h | h | h <;> simp [h]

/-- C7 (amended): when at most three pieces remain and every one of them is
a king, bishop or knight, the post-move bookkeeping sets result = Draw (and
the final value of `post_move` is `Draw` provided the closing mate scan,
which runs last and takes precedence by design, does not record a
checkmate — with one minor piece that cannot actually occur). -/
theorem insufficient_material_draw_le_three (g : Game)
    (hlen : g.live_pieces.length ≤ 3)
    (htypes : ∀ pr ∈ g.live_pieces,
      pr.2.piece_type = PieceType.King ∨
      pr.2.piece_type = PieceType.Bishop ∨
      pr.2.piece_type = PieceType.Knight)
    (hmate : Game.postMoveMateDetected g = false) :
    (Game.materialPhase (Game.repetitionPhase (Game.fiftyPhase
      (Game.checkPhase g)))).result = ChessResult.Draw ∧
    (Game.post_move g).result = ChessResult.Draw := by
  have hk := Game.checkPhase_fields g
  have hf := Game.fiftyPhase_fields (Game.checkPhase g)
  have hrep := Game.repetitionPhase_fields
    (Game.fiftyPhase (Game.checkPhase g))
  have hlive : (Game.repetitionPhase (Game.fiftyPhase
      (Game.checkPhase g))).live_pieces = g.live_pieces := by
    rw [hrep.1, hf.1, hk.1]
  have hm : (Game.materialPhase (Game.repetitionPhase (Game.fiftyPhase
      (Game.checkPhase g)))).result = ChessResult.Draw := by
    apply Game.materialPhase_result_of
    · rw [hlive]; exact hlen
    · rw [hlive]; exact htypes
  refine ⟨hm, ?_⟩
  have hfm : (Game.fullmovePhase (Game.materialPhase (Game.repetitionPhase
      (Game.fiftyPhase (Game.checkPhase g))))).result = ChessResult.Draw := by
    rw [(Game.fullmovePhase_fields _).2.2.2.2.1]
    exact hm
  have ht : (Game.turnFlipPhase (Game.fullmovePhase (Game.materialPhase
      (Game.repetitionPhase (Game.fiftyPhase
        (Game.checkPhase g)))))).result = ChessResult.Draw := by
    rw [(Game.turnFlipPhase_fields _).2.2.2.2.1]
    exact hfm
  rw [Game.post_move_eq_terminal_preTerminal]
  refine Game.terminalPhase_result_draw ?_ ?_
  · unfold Game.preTerminalState
    exact ht
  · unfold Game.postMoveMateDetected at hmate
    exact hmate

theorem insufficient_material_draw_le_three_witness :
    (Game.post_move materialWitnessGame).result = ChessResult.Draw :=
  (insufficient_material_draw_le_three materialWitnessGame (by decide)
    (by decide) (by decide)).2

/-! ### The legality filter only removes pseudo-legal bits -/

theorem Game.legalFilterStep_subset (g : Game) (piece : Piece)
    (own other pb okb moves : Nat) (i j : Nat)
    (h : (Game.legalFilterStep g piece own other pb okb moves i).testBit j
      = true) :
    moves.testBit j = true := by
  unfold Game.legalFilterStep at h
  split at h
  · exact h
  · split at h
    · rw [Nat.testBit_and] at h
      exact ((Bool.and_eq_true _ _).mp h).1
    · exact h

theorem Game.legalFilterFold_subset (g : Game) (piece : Piece)
    (own other pb okb : Nat) (l : List Nat) :
    ∀ (moves j : Nat),
      ((l.foldl (Game.legalFilterStep g piece own other pb okb)
        moves).testBit j = true) →
      moves.testBit j = true := by
  induction l with
  | nil => intro moves j h; exact h
  | cons i tl ih =>
    intro moves j h
    rw [List.foldl_cons] at h
    exact Game.legalFilterStep_subset g piece own other pb okb moves i j
      (ih _ j h)

/-- For a piece that is not a king, `legal_moves` neither adds castling
candidates nor keeps any bit outside the pseudo-legal mask. -/
theorem Game.legal_moves_subset_pseudo (g : Game) (p : Piece)
    (hp : p.piece_type ≠ PieceType.King) (j : Nat)
    (h : (Game.legal_moves g p).testBit j = true) :
    (Game.psuedo_legal_moves g p (ownBitmapOf g p.color)
      (otherBitmapOf g p.color)).testBit j = true := by
  have hcNeg : ¬(p.piece_type = PieceType.King ∧ p.has_moved = false ∧
      g.check = false) := fun hand => hp hand.1
  cases hcol : p.color
  all_goals
    simp only [Game.legal_moves, hcol, ownBitmapOf, otherBitmapOf] at h ⊢
    rw [if_neg hcNeg] at h
    cases hfind : g.live_pieces.find? (fun pr =>
        decide (pr.2.piece_type = PieceType.King) &&
        decide (pr.2.color = p.color)) with
    | none =>
      rw [hcol] at hfind
      simp only [hfind] at h
      exact h
    | some kingEntry =>
      rw [hcol] at hfind
      simp only [hfind] at h
      rw [if_neg hp] at h
      exact Game.legalFilterFold_subset g p _ _ _ _ (List.range 64) _ j h

/-- A pawn's base move onto a square of a different file is a diagonal
capture: the destination carries an opposing piece. -/
theorem Game.pawnBaseMoves_diag_capture_only {p : Piece} {own other : Nat}
    {e : Square}
    (hx1 : -128 ≤ p.pos.x) (hx2 : p.pos.x ≤ 127) (he : e.inBoard)
    (hdiag : e.x ≠ p.pos.x)
    (h : (Game.pawnBaseMoves p own other).testBit e.natIdx = true) :
    other.testBit e.natIdx = true := by
  have hstraight : ∀ dy : Int,
      ((p.pos.moved 0 dy).to_bitmap &&&
        not64 (own ||| other)).testBit e.natIdx = true → False := by
    intro dy hbit
    rw [Nat.testBit_and] at hbit
    obtain ⟨hb, hidx⟩ :=
      Square.testBit_to_bitmap.mp ((Bool.and_eq_true _ _).mp hbit).1
    have heq : e = p.pos.moved 0 dy := Square.natIdx_inj he hb hidx
    have hxx : (p.pos.moved 0 dy).x = p.pos.x := by
      show i8add p.pos.x 0 = p.pos.x
      unfold i8add
      rw [add_zero]
      exact wrap8_eq_self hx1 hx2
    rw [heq] at hdiag
    exact hdiag hxx
  simp only [Game.pawnBaseMoves] at h
  rw [Nat.testBit_or] at h
  rcases (Bool.or_eq_true _ _).mp h with h1 | h2
  · split at h1
    · rw [Nat.testBit_or] at h1
      rcases (Bool.or_eq_true _ _).mp h1 with ha | hb
      · exact absurd ha (fun hh => hstraight _ hh)
      · exact absurd hb (fun hh => hstraight _ hh)
    · exact absurd h1 (fun hh => hstraight _ hh)
  · rw [Nat.testBit_and] at h2
    exact ((Bool.and_eq_true _ _).mp h2).2

theorem Game.pawnEpClause_of_none {g : Game} (p : Piece)
    (hlm : lookupSq g.live_pieces g.last_moved_to = none) :
    Game.pawnEpClause g p = 0 := by
  unfold Game.pawnEpClause
  rw [hlm]

theorem Game.pawnEpClause_of_some {g : Game} (p : Piece) {q : Piece}
    (hlm : lookupSq g.live_pieces g.last_moved_to = some q) :
    Game.pawnEpClause g p =
      if q.piece_type = PieceType.Pawn ∧
          i8add g.last_moved_to.y (p.get_direction * 2) = g.last_moved_from.y ∧
          ((p.pos.moved (-1) 0).to_bitmap ||| (p.pos.moved 1 0).to_bitmap) &&&
            q.pos.to_bitmap ≠ 0 then
        (g.last_moved_to.moved 0 p.get_direction).to_bitmap
      else 0 := by
  unfold Game.pawnEpClause
  rw [hlm]

/-- Any en-passant style destination of a pawn — diagonal, yet not onto an
opposing piece — comes from the en-passant clause, whose guard ties it to
the immediately preceding double pawn advance recorded in `last_moved`. -/
theorem Game.pawn_ep_source {g : Game} {p : Piece} {own other : Nat}
    {e : Square}
    (hx1 : -128 ≤ p.pos.x) (hx2 : p.pos.x ≤ 127) (he : e.inBoard)
    (hdiag : e.x ≠ p.pos.x) (hempty : other.testBit e.natIdx = false)
    (h : (Game.psuedo_legal_moves_pawn g p own other).testBit e.natIdx
      = true) :
    ∃ q, lookupSq g.live_pieces g.last_moved_to = some q ∧
      q.piece_type = PieceType.Pawn ∧
      i8add g.last_moved_to.y (p.get_direction * 2) = g.last_moved_from.y ∧
      ((p.pos.moved (-1) 0).to_bitmap ||| (p.pos.moved 1 0).to_bitmap) &&&
        q.pos.to_bitmap ≠ 0 ∧
      e = g.last_moved_to.moved 0 p.get_direction := by
  unfold Game.psuedo_legal_moves_pawn at h
  rw [Nat.testBit_or] at h
  rcases (Bool.or_eq_true _ _).mp h with hbase | hep
  · have hcap := Game.pawnBaseMoves_diag_capture_only hx1 hx2 he hdiag hbase
    rw [hempty] at hcap
    exact Bool.noConfusion hcap
  · cases hlm : lookupSq g.live_pieces g.last_moved_to with
    | none =>
      rw [Game.pawnEpClause_of_none p hlm, Nat.zero_testBit] at hep
      exact Bool.noConfusion hep
    | some q =>
      rw [Game.pawnEpClause_of_some p hlm] at hep
      by_cases hcond : (q.piece_type = PieceType.Pawn ∧
          i8add g.last_moved_to.y (p.get_direction * 2) = g.last_moved_from.y ∧
          ((p.pos.moved (-1) 0).to_bitmap ||| (p.pos.moved 1 0).to_bitmap) &&&
            q.pos.to_bitmap ≠ 0)
      · rw [if_pos hcond] at hep
        obtain ⟨hq1, hq2, hq3⟩ := hcond
        obtain ⟨hb, hidx⟩ := Square.testBit_to_bitmap.mp hep
        exact ⟨q, rfl, hq1, hq2, hq3, Square.natIdx_inj he hb hidx⟩
      · rw [if_neg hcond, Nat.zero_testBit] at hep
        exact Bool.noConfusion hep

/-- `psuedo_legal_moves` dispatches a pawn to the pawn generator. -/
theorem Game.psuedo_dispatch_pawn (g : Game) (p : Piece) (a b : Nat)
    (hp : p.piece_type = PieceType.Pawn) :
    Game.psuedo_legal_moves g p a b = Game.psuedo_legal_moves_pawn g p a b := by
  unfold Game.psuedo_legal_moves
  rw [hp]

/-- `forceMoveCore` sets `last_moved_from/to` to the moved piece's old
position and the destination. -/
theorem Game.forceMoveCore_last_moved (g : Game) (p : Piece) (t : Square) :
    (Game.forceMoveCore g p t).last_moved_from = p.pos ∧
    (Game.forceMoveCore g p t).last_moved_to = t :=
  ⟨rfl, rfl⟩

/-- `forceMoveFinish` never touches `last_moved_from/to`. -/
theorem Game.forceMoveFinish_last_moved (g8 : Game) :
    (Game.forceMoveFinish g8).last_moved_from = g8.last_moved_from ∧
    (Game.forceMoveFinish g8).last_moved_to = g8.last_moved_to := by
  unfold Game.forceMoveFinish
  split
  · exact ⟨(Game.post_move_last_moved _).1, (Game.post_move_last_moved _).2⟩
  · exact ⟨rfl, rfl⟩

/-- A successful `force_move` records the move in `last_moved_from/to`
(which the subsequent bookkeeping never touches). -/
theorem Game.force_move_last_moved {g : Game} {p : Piece} {t : Square}
    {g2 : Game} (h : Game.force_move g p t = Except.ok g2) :
    g2.last_moved_from = p.pos ∧ g2.last_moved_to = t := by
  unfold Game.force_move at h
  split at h
  · exact Except.noConfusion h
  · split at h
    · exact Except.noConfusion h
    · have hG : forceMoveFinish (forceMoveCore g p t) = g2 := Except.ok.inj h
      rw [← hG]
      rw [(Game.forceMoveFinish_last_moved _).1,
        (Game.forceMoveFinish_last_moved _).2]
      exact Game.forceMoveCore_last_moved g p t

/-- A successful `do_move g f t` ends with `last_moved_from` on the moved
piece's source square and `last_moved_to = t`. -/
theorem Game.do_move_sets_last_moved {g : Game} {f t : Square} {g2 : Game}
    (h : Game.do_move g f t = (true, g2)) :
    ∃ pc, lookupSq g.live_pieces f = some pc ∧
      g2.last_moved_from = pc.pos ∧ g2.last_moved_to = t := by
  unfold Game.do_move at h
  cases hl : lookupSq g.live_pieces f with
  | none =>
    simp only [hl] at h
    exact absurd (congrArg Prod.fst h) (by simp)
  | some p =>
    simp only [hl] at h
    by_cases hc : p.color ≠ g.turn
    · rw [if_pos hc] at h
      exact absurd (congrArg Prod.fst h) (by simp)
    · rw [if_neg hc] at h
      by_cases hpr : g.promotion = true
      · rw [if_pos hpr] at h
        exact absurd (congrArg Prod.fst h) (by simp)
      · rw [if_neg hpr] at h
        by_cases hlm : Game.legal_moves g p &&& t.to_bitmap ≠ 0
        · rw [if_pos hlm] at h
          cases hfm : Game.force_move g p t with
          | error msg =>
            rw [hfm] at h
            exact absurd (congrArg Prod.fst h) (by simp)
          | ok gg =>
            rw [hfm] at h
            have hg2 : gg = g2 := congrArg Prod.snd h
            subst hg2
            obtain ⟨h1, h2⟩ := Game.force_move_last_moved hfm
            exact ⟨p, rfl, h1, h2⟩
        · rw [if_neg hlm] at h
          exact absurd (congrArg Prod.fst h) (by simp)

/-- C9: en passant is available only on the move immediately following the
double advance.  After any completed `do_move g f t`, whenever any pawn `p`
of the new position has a legal destination `e` that is diagonal
(`e.x ≠ p.pos.x`) yet not an ordinary capture (no opposing piece on `e`),
the guard of the en-passant clause must hold for the position's
`last_moved` data — the piece recorded there is a pawn that just moved two
ranks, file-adjacent to `p`, with `e` the square directly behind it — and
that `last_moved` data is exactly the move `f → t` just played.  Hence a
two-square advance enables the capture for the immediately following move
only, and any other intervening completed move extinguishes it. -/
theorem en_passant_only_immediately_after_double_advance
    (g : Game) (f t : Square) (g2 : Game)
    (hmove : Game.do_move g f t = (true, g2))
    (s : Square) (p : Piece)
    (_hlook : lookupSq g2.live_pieces s = some p)
    (hp : p.piece_type = PieceType.Pawn)
    (hx1 : -128 ≤ p.pos.x) (hx2 : p.pos.x ≤ 127)
    (e : Square)
    (hleg : Game.legal_moves g2 p &&& e.to_bitmap ≠ 0)
    (hdiag : e.x ≠ p.pos.x)
    (hempty : Game.otherBitmapOf g2 p.color &&& e.to_bitmap = 0) :
    (∃ q, lookupSq g2.live_pieces g2.last_moved_to = some q ∧
      q.piece_type = PieceType.Pawn ∧
      i8add g2.last_moved_to.y (p.get_direction * 2) = g2.last_moved_from.y ∧
      ((p.pos.moved (-1) 0).to_bitmap ||| (p.pos.moved 1 0).to_bitmap) &&&
        q.pos.to_bitmap ≠ 0 ∧
      e = g2.last_moved_to.moved 0 p.get_direction) ∧
    (∃ pc, lookupSq g.live_pieces f = some pc ∧
      g2.last_moved_from = pc.pos ∧ g2.last_moved_to = t) := by
  obtain ⟨he, hbit⟩ := land_to_bitmap_ne_zero_iff.mp hleg
  have hk : p.piece_type ≠ PieceType.King := by
    rw [hp]
    intro hcontra
    exact PieceType.noConfusion hcontra
  have hps := Game.legal_moves_subset_pseudo g2 p hk e.natIdx hbit
  rw [Game.psuedo_dispatch_pawn g2 p _ _ hp] at hps
  have hemptyBit : (Game.otherBitmapOf g2 p.color).testBit e.natIdx = false :=
    (land_to_bitmap_eq_zero_iff he).mp hempty
  exact ⟨Game.pawn_ep_source hx1 hx2 he hdiag hemptyBit hps,
    Game.do_move_sets_last_moved hmove⟩

theorem en_passant_only_immediately_after_double_advance_witness :
    (∃ q, lookupSq epWitnessAfter.live_pieces epWitnessAfter.last_moved_to =
        some q ∧
      q.piece_type = PieceType.Pawn ∧
      i8add epWitnessAfter.last_moved_to.y (epWitnessPawn.get_direction * 2) =
        epWitnessAfter.last_moved_from.y ∧
      ((epWitnessPawn.pos.moved (-1) 0).to_bitmap |||
        (epWitnessPawn.pos.moved 1 0).to_bitmap) &&& q.pos.to_bitmap ≠ 0 ∧
      (⟨4, 2⟩ : Square) =
        epWitnessAfter.last_moved_to.moved 0 epWitnessPawn.get_direction) ∧
    (∃ pc, lookupSq epWitnessStart.live_pieces ⟨4, 1⟩ = some pc ∧
      epWitnessAfter.last_moved_from = pc.pos ∧
      epWitnessAfter.last_moved_to = ⟨4, 3⟩) :=
  en_passant_only_immediately_after_double_advance epWitnessStart ⟨4, 1⟩
    ⟨4, 3⟩ epWitnessAfter (by decide) ⟨3, 3⟩ epWitnessPawn (by decide) rfl
    (by decide) (by decide) ⟨4, 2⟩ (by decide) (by decide) (by decide)

end Chess
